import Mathlib

/-!
# Verification of the rtspcap / rtsp_decoder capture-to-media pipeline

This development gives a shallow embedding, in Lean 4, of the parts of the
`rtspcap` / `rtsp_decoder` Python code base that the specification's claims
talk about:

* the codec-specific RTP depacketizers for H.264 and HEVC
  (`rtspcap/codecs/h264.py`, `rtspcap/codecs/h265.py`);
* the generic best-effort reassembler (`rtsp_decoder/reassembler.py`);
* the RTSP session state machine and the interleaved framing parser
  (`rtsp_decoder/rtsp_session.py`);
* the stream orchestrator's RTP-identity table
  (`rtsp_decoder/rtsp.py`);
* the per-slot close helper (`rtsp_decoder/rtsp_decoder.py`).

Byte strings are modelled as `List Nat`, Python `int` as `Int` or `Nat` as
appropriate, Python dictionaries as association lists, and a raised Python
exception as an `Except`/`Option PyErr` result carrying the state as mutated
up to the raise point.  Calls into the external libav binding
(`codec_ctx.parse`) are modelled as emitting the byte buffer handed to them,
which is exactly the data the depacketizer produces.
-/

/-- The Python exceptions that the modelled code can raise. -/
inductive PyErr where
  /-- `ValueError` (e.g. `Reassembler is done`). -/
  | valueError : PyErr
  /-- `NameError` / `SyntaxError`: reference to a name that is not in scope
  (`invalid_five_tuples` in `RTSPDataExtractor._handle_rtp_packet`). -/
  | nameError : PyErr
  /-- `UnboundLocalError`: augmented assignment to a local that was never
  assigned (`out_packet` in `CodecH265.handle_packet`). -/
  | unboundLocalError : PyErr
  /-- A failed `assert` statement. -/
  | assertError : PyErr
  deriving Repr, DecidableEq

/-- An RTP packet as parsed by `rtsp_decoder/rtp_packet.py` (`RTPPacket`). -/
structure RTPPacket where
  marker : Bool
  payload_type : Nat
  seq : Nat
  timestamp : Nat
  ssrc : Nat
  payload : List Nat
  deriving Repr, DecidableEq

namespace CodecH264

/-- `H264_STARTING_SEQUENCE = b"\x00\x00\x00\x01"` (`rtspcap/codecs/h264.py`). -/
def H264_STARTING_SEQUENCE : List Nat := [0x00, 0x00, 0x00, 0x01]

/-- `CodecH264.handle_aggregated_packet` from `rtspcap/codecs/h264.py`:
while more than 2 bytes remain, read a 2-byte NAL size **little-endian**
(`int.from_bytes(nal_size_bytes, byteorder="little")`), stop if the size
exceeds the remaining bytes, otherwise emit the start code plus that many
bytes and skip `skip_between` extra bytes.  `codec_ctx.parse` is modelled as
emitting the buffer passed to it. -/
def handle_aggregated_packet (buf : List Nat) (skip_between : Nat) :
    List (List Nat) :=
  match buf with
  | b0 :: b1 :: b2 :: rest =>
    -- `len(buf) > 2`
    let nal_size := b0 + 256 * b1
    let tail := b2 :: rest
    if nal_size > tail.length then
      []  -- `logger.error(...); break`
    else
      (H264_STARTING_SEQUENCE ++ tail.take nal_size) ::
        handle_aggregated_packet (tail.drop (nal_size + skip_between)) skip_between
  | _ => []
termination_by buf.length
decreasing_by
  simp only [List.length_drop, List.length_cons]
  omega

/-- `CodecH264.handle_frag_packet`: if the start bit is set, emit the start
code and the reconstructed NAL header before the fragment body. -/
def handle_frag_packet (buf : List Nat) (start_bit : Nat) (nal_header : List Nat) :
    List (List Nat) :=
  let buffer_to_parse :=
    (if start_bit ≠ 0 then H264_STARTING_SEQUENCE ++ nal_header else []) ++ buf
  [buffer_to_parse]

/-- `CodecH264._handle_fu_a_packet`. -/
def handle_fu_a_packet (buf : List Nat) : List (List Nat) :=
  if buf.length < 3 then []
  else
    let fu_indicator := buf.headD 0
    let fu_header := buf.getD 1 0
    let start_bit := fu_header >>> 7
    let nal_type := fu_header &&& 0x1F
    let nal := fu_indicator &&& 0xE0 ||| nal_type
    handle_frag_packet (buf.drop 2) start_bit [nal]

/-- `CodecH264.handle_packet` from `rtspcap/codecs/h264.py`.  A `none` packet
is the flush signal and yields no access units. -/
def handle_packet (packet : Option RTPPacket) : List (List Nat) :=
  match packet with
  | none => []
  | some pkt =>
    let buf := pkt.payload
    if buf.length = 0 then []  -- `logger.error("RTP h264 invalid data")`
    else
      let nal := buf.headD 0
      let nal_type0 := nal &&& 0x1F
      let nal_type := if 1 ≤ nal_type0 ∧ nal_type0 ≤ 23 then 1 else nal_type0
      if nal_type = 0 ∨ nal_type = 1 then
        [H264_STARTING_SEQUENCE ++ buf]
      else if nal_type = 24 then
        handle_aggregated_packet (buf.drop 1) 0
      else if nal_type = 28 then
        handle_fu_a_packet buf
      else
        []  -- unsupported NAL type, logged and dropped

/-- The STAP-A iteration as the claim states it (2-byte **big-endian** NAL
size, per RFC 6184), written only to be compared against the source's
little-endian `handle_aggregated_packet`. -/
def stapA_bigendian (buf : List Nat) : List (List Nat) :=
  match buf with
  | b0 :: b1 :: b2 :: rest =>
    let nal_size := 256 * b0 + b1
    let tail := b2 :: rest
    if nal_size > tail.length then
      []
    else
      (H264_STARTING_SEQUENCE ++ tail.take nal_size) ::
        stapA_bigendian (tail.drop nal_size)
  | _ => []
termination_by buf.length
decreasing_by
  simp only [List.length_drop, List.length_cons]
  omega

end CodecH264

namespace CodecH265

/-- The per-stream HEVC context (`H265Context` in `rtspcap/codecs/h265.py`). -/
structure H265Context where
  profile_id : Nat := 0
  using_donl_field : Bool := false
  deriving Repr, DecidableEq

open CodecH264 in
/-- `CodecH265.handle_packet` from `rtspcap/codecs/h265.py`.  The branch for
NAL type 48 (aggregated packet) executes `out_packet += ...` where only
`out_packets` was ever assigned, so Python raises `UnboundLocalError` there;
the model returns `.error .unboundLocalError` at that point. -/
def handle_packet (h265_ctx : H265Context) (packet : Option RTPPacket) :
    Except PyErr (List (List Nat)) :=
  match packet with
  | none => .ok []
  | some pkt =>
    let buf := pkt.payload
    let rtp_pl := buf
    if buf.length < 2 + 1 then .ok []  -- too short RTP/HEVC packet
    else
      let nal_type := (buf.headD 0 >>> 1) &&& 0x3F
      let lid := ((buf.headD 0 <<< 5) &&& 0x20) ||| ((buf.getD 1 0 >>> 3) &&& 0x1F)
      let tid := buf.getD 1 0 &&& 0x07
      if lid ≠ 0 then .ok []          -- multi-layer not supported
      else if tid = 0 then .ok []     -- illegal temporal ID
      else if nal_type > 50 then .ok []
      else if nal_type = 48 then
        -- Aggregated packet: the source runs `out_packet += CodecH264
        -- .handle_aggregated_packet(...)`, but `out_packet` (singular) was
        -- never assigned, so this raises before emitting anything.
        .error .unboundLocalError
      else if nal_type = 49 then
        -- Fragmentation unit
        let buf := buf.drop 2
        let first_fragment := buf.headD 0 &&& 0x80
        let fu_type := buf.headD 0 &&& 0x3F
        let last_fragment := buf.headD 0 &&& 0x40
        let buf := buf.drop 1
        if buf.length = 0 then .ok []
        else
          let buf := if h265_ctx.using_donl_field then buf.drop 2 else buf
          if buf.length = 0 then .ok []
          else if first_fragment ≠ 0 ∧ last_fragment ≠ 0 then .ok []
          else
            let new_nal_header :=
              [(rtp_pl.headD 0 &&& 0x81) ||| (fu_type <<< 1), rtp_pl.getD 1 0]
            .ok (handle_frag_packet buf first_fragment new_nal_header)
      else if nal_type = 50 then .ok []  -- PACI not supported
      else
        .ok [H264_STARTING_SEQUENCE ++ buf]  -- single NAL unit

end CodecH265

/-- C1: H.264 STAP-A depacketization reads the 2-byte NAL size big-endian.
The source (`CodecH264.handle_aggregated_packet`, and identically
`RTPCodecH264._handle_aggregated_packet`) reads it **little-endian**
(`byteorder="little"`): on the STAP-A payload `18 00 01 AA` the claimed
big-endian reading yields the single NAL unit `AA` behind a start code, but
the code computes size `0x0100 = 256 > 1` and emits nothing.  The code
contradicts its own provenance comment (`Taken from ffmpeg:
rtpdec_h264.c:h264_handle_packet`, which reads network byte order) and the
specification's own §9 note calls this an endianness bug, so this is a code
bug rather than a spec error. -/
theorem c1_stapA_little_endian_code_bug :
    CodecH264.handle_packet
        (some ⟨false, 96, 0, 0, 0, [0x18, 0x00, 0x01, 0xAA]⟩) = [] ∧
      CodecH264.stapA_bigendian [0x00, 0x01, 0xAA] =
        [[0x00, 0x00, 0x00, 0x01, 0xAA]] := by
  constructor
  · simp [CodecH264.handle_packet, CodecH264.handle_aggregated_packet,
      CodecH264.H264_STARTING_SEQUENCE]
    decide
  · simp [CodecH264.stapA_bigendian, CodecH264.H264_STARTING_SEQUENCE]

/-- C4: for every RTP payload whose 2-byte HEVC payload header has NAL type
48 and passes the LayerId/TID checks, `CodecH265.handle_packet` raises
`UnboundLocalError` (the aggregated branch accumulates into the never-assigned
local `out_packet`), so it neither returns without raising nor emits the
aggregated NAL units. -/
theorem c4_hevc_aggregated_raises (ctx : CodecH265.H265Context)
    (pkt : RTPPacket) (hlen : 3 ≤ pkt.payload.length)
    (htype : (pkt.payload.headD 0 >>> 1) &&& 0x3F = 48)
    (hlid : ((pkt.payload.headD 0 <<< 5) &&& 0x20) |||
      ((pkt.payload.getD 1 0 >>> 3) &&& 0x1F) = 0)
    (htid : pkt.payload.getD 1 0 &&& 0x07 ≠ 0) :
    CodecH265.handle_packet ctx (some pkt) = .error .unboundLocalError := by
  unfold CodecH265.handle_packet
  have h3 : ¬ pkt.payload.length < 3 := by omega
  simp only [h3, if_false, htype, hlid, htid]
  simp

/-- Witness for `c4_hevc_aggregated_raises`: the concrete payload
`60 01 00 01 AA` has NAL type 48, LayerId 0, TID 1. -/
theorem c4_hevc_aggregated_raises_witness :
    CodecH265.handle_packet {} (some ⟨false, 96, 0, 0, 0, [0x60, 0x01, 0x00, 0x01, 0xAA]⟩) =
      .error .unboundLocalError :=
  c4_hevc_aggregated_raises {} ⟨false, 96, 0, 0, 0, [0x60, 0x01, 0x00, 0x01, 0xAA]⟩
    (by decide) (by decide) (by decide) (by decide)

/-- C10: a null (flush) packet makes both the H.264 and the HEVC
depacketizer return the empty list of access units, for every HEVC context:
buffered fragment data is never emitted at end of stream. -/
theorem c10_flush_emits_nothing :
    CodecH264.handle_packet none = [] ∧
      ∀ ctx : CodecH265.H265Context, CodecH265.handle_packet ctx none = .ok [] := by
  constructor
  · rfl
  · intro ctx
    rfl

namespace Reassembler

/-- The two operating modes of `Reassembler` (`rtsp_decoder/reassembler.py`):
in packet mode the sequence number advances by one per admitted packet, in
data mode by the byte length of the admitted payload. -/
inductive RMode where
  | packet : RMode
  | data : RMode
  deriving Repr, DecidableEq

/-- The constructor arguments of `Reassembler.__init__`:
`seq_bit_size`, `max_out_of_order`, `mode`.  `byteLen` is Python's `len` on
the payload type, used in data mode. -/
structure Params (T : Type) where
  seqBitSize : Nat
  maxOutOfOrder : Nat
  mode : RMode
  byteLen : T → Nat

/-- The mutable state of a `Reassembler` instance: `_out_of_order_packets`
(a dict, modelled as an insertion-ordered association list),
`_expected_seq`, `_output_queue` and `_done`. -/
structure RState (T : Type) where
  oooPackets : List (Int × T) := []
  expectedSeq : Option Int := none
  outputQueue : List (Option T × Bool) := []
  done : Bool := false

/-- The amount `_increment_expected_seq` adds: 1 in packet mode, `len(packet)`
in data mode. -/
def seqSize {T : Type} (p : Params T) (packet : T) : Int :=
  match p.mode with
  | .packet => 1
  | .data => p.byteLen packet

/-- `_increment_expected_seq`: advance and reduce modulo `1 << seq_bit_size`. -/
def incrementExpectedSeq {T : Type} (p : Params T) (e : Int) (packet : T) : Int :=
  (e + seqSize p packet) % ((2 : Int) ^ p.seqBitSize)

/-- `self._out_of_order_packets[seq] = packet`: overwrite an existing key,
otherwise append (Python dicts keep insertion order). -/
def dictInsert {T : Type} (d : List (Int × T)) (k : Int) (v : T) : List (Int × T) :=
  if d.any (fun q => q.1 = k) then
    d.map (fun q => if q.1 = k then (k, v) else q)
  else
    d ++ [(k, v)]

/-- `min(self._out_of_order_packets.keys())` followed by `pop` of that key:
returns the entry with the smallest key and the dictionary without it
(keeping the order of the remaining entries). -/
def popMin {T : Type} : List (Int × T) → Option ((Int × T) × List (Int × T))
  | [] => none
  | (k, v) :: rest =>
    match popMin rest with
    | none => some ((k, v), [])
    | some ((k', v'), rest') =>
      if k ≤ k' then some ((k, v), rest) else some ((k', v'), (k, v) :: rest')

/-- `self._out_of_order_packets.pop(k)` guarded by `k in self._out_of_order_packets`. -/
def popKey {T : Type} : List (Int × T) → Int → Option (T × List (Int × T))
  | [], _ => none
  | (k', v) :: rest, k =>
    if k' = k then some (v, rest)
    else
      match popKey rest k with
      | none => none
      | some (w, rest') => some (w, (k', v) :: rest')

/-- The `while self._out_of_order_packets:` loop of `process(None)`: pop the
minimum-key entry, emit it with `skipped := (its seq ≠ expected)`, rebase
`expected` on a skip, and advance `expected`.  The recursion is paced by a
fuel argument that the wrapper sets to the table size (each iteration pops
exactly one entry, so the fuel is never exhausted first). -/
def finalizeGo {T : Type} (p : Params T) :
    Nat → List (Int × T) → Int → List (Option T × Bool) × Int
  | 0, _, e => ([], e)
  | fuel + 1, d, e =>
    match popMin d with
    | none => ([], e)
    | some ((k, v), d') =>
      let skipped := k ≠ e
      let e1 := if skipped then k else e
      let e2 := incrementExpectedSeq p e1 v
      let (out, ef) := finalizeGo p fuel d' e2
      ((some v, decide skipped) :: out, ef)

/-- The final drain of `process(None)`. -/
def finalizeDrain {T : Type} (p : Params T) (d : List (Int × T)) (e : Int) :
    List (Option T × Bool) × Int :=
  finalizeGo p d.length d e

/-- The `while True:` loop after a forced rebase: advance `expected`, and as
long as the next expected sequence is held, pop and emit it un-skipped.
Fuel-paced like `finalizeGo`. -/
def triggerGo {T : Type} (p : Params T) :
    Nat → List (Int × T) → Int → T → List (Option T × Bool) × List (Int × T) × Int
  | 0, d, e, last => ([], d, incrementExpectedSeq p e last)
  | fuel + 1, d, e, last =>
    let e' := incrementExpectedSeq p e last
    match popKey d e' with
    | none => ([], d, e')
    | some (v, d') =>
      let (out, d'', ef) := triggerGo p fuel d' e' v
      ((some v, false) :: out, d'', ef)

/-- `Reassembler.process(packet, seq)` from `rtsp_decoder/reassembler.py`,
returning the new state and `some err` when the Python code would raise
(`ValueError("Reassembler is done")`, or `min()` of an empty dict when
`max_out_of_order` is 0). -/
def process {T : Type} (p : Params T) (st : RState T) (packet : Option T)
    (seq : Int) : RState T × Option PyErr :=
  if st.done then (st, some .valueError)
  else
    let e0 := match st.expectedSeq with | none => seq | some e => e
    match packet with
    | none =>
      let (out, ef) := finalizeDrain p st.oooPackets e0
      ({ st with done := true, expectedSeq := some ef, oooPackets := [],
                 outputQueue := st.outputQueue ++ out ++ [(none, false)] }, none)
    | some pkt =>
      if seq ≠ e0 then
        let d := if seq > e0 then dictInsert st.oooPackets seq pkt else st.oooPackets
        if d.length < p.maxOutOfOrder then
          ({ st with oooPackets := d, expectedSeq := some e0 }, none)
        else
          match popMin d with
          | none =>
            -- `min` of an empty dict raises before any assignment
            ({ st with oooPackets := d, expectedSeq := some e0 }, some .valueError)
          | some ((k, v), d') =>
            let (out, d'', ef) := triggerGo p d'.length d' k v
            ({ st with oooPackets := d'', expectedSeq := some ef,
                       outputQueue := st.outputQueue ++ (some v, true) :: out }, none)
      else
        ({ st with outputQueue := st.outputQueue ++ [(some pkt, false)],
                   expectedSeq := some (incrementExpectedSeq p e0 pkt) }, none)

/-- Feed a list of `(packet, seq)` pairs through `process`; an exception
aborts the run, as an uncaught Python exception would. -/
def processAll {T : Type} (p : Params T) (st : RState T) :
    List (T × Int) → RState T × Option PyErr
  | [] => (st, none)
  | (pkt, q) :: rest =>
    match process p st (some pkt) q with
    | (st', none) => processAll p st' rest
    | (st', some err) => (st', some err)

/-- The packet-mode reassembler used per decoder slot
(`RTPDecoder.MAX_OUT_OF_ORDER_PACKETS = 50`, 16-bit RTP sequence space). -/
def rtpParams : Params Nat := ⟨16, 50, .packet, fun _ => 1⟩

end Reassembler

/-- C2 counterexample: with the per-stream packet-mode reassembler
(`W = 16`, `K = 50`), the input `[(a, seq 1), (b, seq 0)]` has no duplicate
and no missing sequence numbers and out-of-order displacement 1 ≤ K, yet the
emitted items before the sentinel are `[a]` — the packet with sequence 0 is
silently dropped because `process` initializes `expected` to the sequence
number of the first packet fed and discards anything behind it, so the
output is not the input in sequence order. -/
theorem c2_reassembler_identity_counterexample :
    (Reassembler.processAll Reassembler.rtpParams {} [(10, 1), (20, 0)]).2 = none ∧
      (Reassembler.process Reassembler.rtpParams
          (Reassembler.processAll Reassembler.rtpParams {} [(10, 1), (20, 0)]).1
          none (-1)).1.outputQueue =
        [(some 10, false), (none, false)] := by
  decide

/-- C3 counterexample: with `max_out_of_order = 2 = K`, after the in-order
packet `(10, seq 0)` the two out-of-order packets `(30, seq 2)` and
`(40, seq 3)` are fed — only `K` out-of-order packets ever arrive and no
`(K+1)`-th exists, yet the reassembler already flags `(30, true)`: the skip
fires as soon as the hold table reaches size `K`, not on a `(K+1)`-th
arrival. -/
theorem c3_window_boundary_counterexample :
    (Reassembler.processAll ⟨16, 2, .packet, fun _ => 1⟩
        ({} : Reassembler.RState Nat) [(10, 0), (30, 2), (40, 3)]).1.outputQueue =
      [(some 10, false), (some 30, true), (some 40, false)] := by
  decide

namespace Reassembler

theorem popMin_eq_none {T : Type} {d : List (Int × T)} :
    popMin d = none ↔ d = [] := by
  cases d with
  | nil => simp [popMin]
  | cons hd tl =>
    obtain ⟨k, v⟩ := hd
    simp only [popMin]
    cases h : popMin tl with
    | none => simp
    | some kv =>
      obtain ⟨⟨k', v'⟩, rest'⟩ := kv
      by_cases hk : k ≤ k' <;> simp [hk]

theorem popMin_min {T : Type} {d : List (Int × T)} {k : Int} {v : T}
    {d' : List (Int × T)} (h : popMin d = some ((k, v), d')) :
    ∀ r ∈ d.map Prod.fst, k ≤ r := by
  induction d generalizing k v d' with
  | nil => simp [popMin] at h
  | cons hd tl ih =>
    obtain ⟨k0, v0⟩ := hd
    simp only [popMin] at h
    cases htl : popMin tl with
    | none =>
      rw [htl] at h
      have htl' : tl = [] := popMin_eq_none.mp htl
      subst htl'
      simp only [Option.some.injEq, Prod.mk.injEq] at h
      obtain ⟨⟨rfl, rfl⟩, rfl⟩ := h
      simp
    | some kv =>
      obtain ⟨⟨k', v'⟩, rest'⟩ := kv
      rw [htl] at h
      by_cases hk : k0 ≤ k'
      · simp only [if_pos hk, Option.some.injEq, Prod.mk.injEq] at h
        obtain ⟨⟨rfl, rfl⟩, rfl⟩ := h
        intro r hr
        simp only [List.map_cons, List.mem_cons] at hr
        rcases hr with rfl | hr
        · exact le_refl _
        · exact le_trans hk (ih htl _ hr)
      · simp only [if_neg hk, Option.some.injEq, Prod.mk.injEq] at h
        obtain ⟨⟨rfl, rfl⟩, rfl⟩ := h
        intro r hr
        simp only [List.map_cons, List.mem_cons] at hr
        rcases hr with rfl | hr
        · omega
        · exact ih htl _ hr

theorem popMin_perm {T : Type} {d : List (Int × T)} {kv : Int × T}
    {d' : List (Int × T)} (h : popMin d = some (kv, d')) :
    d.Perm (kv :: d') := by
  induction d generalizing kv d' with
  | nil => simp [popMin] at h
  | cons hd tl ih =>
    obtain ⟨k0, v0⟩ := hd
    simp only [popMin] at h
    cases htl : popMin tl with
    | none =>
      rw [htl] at h
      have htl' : tl = [] := popMin_eq_none.mp htl
      subst htl'
      simp only [Option.some.injEq, Prod.mk.injEq] at h
      obtain ⟨rfl, rfl⟩ := h
      exact List.Perm.refl _
    | some kv' =>
      obtain ⟨⟨k', v'⟩, rest'⟩ := kv'
      rw [htl] at h
      by_cases hk : k0 ≤ k'
      · simp only [if_pos hk, Option.some.injEq, Prod.mk.injEq] at h
        obtain ⟨rfl, rfl⟩ := h
        exact List.Perm.refl _
      · simp only [if_neg hk, Option.some.injEq, Prod.mk.injEq] at h
        obtain ⟨rfl, rfl⟩ := h
        exact (List.Perm.cons _ (ih htl)).trans (List.Perm.swap _ _ _)

theorem popMin_isSome {T : Type} {d : List (Int × T)} (h : d ≠ []) :
    ∃ kv d', popMin d = some (kv, d') := by
  cases hpm : popMin d with
  | none => exact absurd (popMin_eq_none.mp hpm) h
  | some x =>
    obtain ⟨kv, d'⟩ := x
    exact ⟨kv, d', rfl⟩

theorem dictInsert_of_not_mem {T : Type} {d : List (Int × T)} {k : Int} {v : T}
    (h : k ∉ d.map Prod.fst) : dictInsert d k v = d ++ [(k, v)] := by
  unfold dictInsert
  have hany : d.any (fun q => q.1 = k) = false := by
    simp only [List.any_eq_false, decide_eq_true_eq]
    intro q hq hk
    exact h (hk ▸ List.mem_map_of_mem Prod.fst hq)
  rw [hany]
  simp

theorem triggerGo_all_false {T : Type} (p : Params T) (fuel : Nat) :
    ∀ (d : List (Int × T)) (e : Int) (last : T),
      ∀ x ∈ (triggerGo p fuel d e last).1, x.2 = false := by
  induction fuel with
  | zero => intro d e last x hx; simp [triggerGo] at hx
  | succ n ih =>
    intro d e last x hx
    simp only [triggerGo] at hx
    cases hpk : popKey d (incrementExpectedSeq p e last) with
    | none => rw [hpk] at hx; simp at hx
    | some vd =>
      obtain ⟨v, d'⟩ := vd
      rw [hpk] at hx
      simp only [List.mem_cons] at hx
      rcases hx with rfl | hx
      · rfl
      · exact ih d' (incrementExpectedSeq p e last) v x hx

end Reassembler

/-- C3 amended: (i) a packet arriving with the expected sequence number is
emitted with `skipped = false`; the hold table is not consulted, so with any
number of held packets an in-order arrival never flags a skip.  (ii) When an
out-of-order packet arrives that makes the hold table reach exactly `K`
entries (`max_out_of_order`), the reassembler immediately pops the smallest
held sequence number, emits it as the single `skipped = true` emission, and
drains contiguous successors un-flagged — i.e. the skip fires on the `K`-th
held out-of-order packet, not on a `(K+1)`-th arrival. -/
theorem c3_window_boundary_amended {T : Type} (p : Reassembler.Params T)
    (st : Reassembler.RState T) (e : Int) (pkt : T) (q : Int)
    (hdone : st.done = false) (hexp : st.expectedSeq = some e) :
    (q = e →
      (Reassembler.process p st (some pkt) q).1.outputQueue =
          st.outputQueue ++ [(some pkt, false)] ∧
        (Reassembler.process p st (some pkt) q).2 = none) ∧
    (q ≠ e → e < q → q ∉ st.oooPackets.map Prod.fst →
      st.oooPackets.length + 1 = p.maxOutOfOrder →
      ∃ kmin vmin drest out,
        Reassembler.popMin (st.oooPackets ++ [(q, pkt)]) = some ((kmin, vmin), drest) ∧
        (∀ r ∈ (st.oooPackets ++ [(q, pkt)]).map Prod.fst, kmin ≤ r) ∧
        (Reassembler.process p st (some pkt) q).1.outputQueue =
          st.outputQueue ++ (some vmin, true) :: out ∧
        (∀ x ∈ out, x.2 = false) ∧
        (Reassembler.process p st (some pkt) q).2 = none) := by
  constructor
  · intro hq
    subst hq
    simp [Reassembler.process, hdone, hexp]
  · intro hq hlt hfresh hsize
    have hins := Reassembler.dictInsert_of_not_mem (v := pkt) hfresh
    have hne : st.oooPackets ++ [(q, pkt)] ≠ [] := by simp
    obtain ⟨⟨kmin, vmin⟩, drest, hpm⟩ := Reassembler.popMin_isSome hne
    refine ⟨kmin, vmin, drest,
      (Reassembler.triggerGo p drest.length drest kmin vmin).1, hpm, ?_, ?_, ?_, ?_⟩
    · exact Reassembler.popMin_min hpm
    · simp only [Reassembler.process, hdone, Bool.false_eq_true, if_false, hexp]
      rw [if_pos hq, if_pos (by omega : q > e), hins]
      have hlen : ¬ ((st.oooPackets ++ [(q, pkt)]).length < p.maxOutOfOrder) := by
        simp only [List.length_append, List.length_cons, List.length_nil]
        omega
      rw [if_neg hlen, hpm]
    · exact Reassembler.triggerGo_all_false p drest.length drest kmin vmin
    · simp only [Reassembler.process, hdone, Bool.false_eq_true, if_false, hexp]
      rw [if_pos hq, if_pos (by omega : q > e), hins]
      have hlen : ¬ ((st.oooPackets ++ [(q, pkt)]).length < p.maxOutOfOrder) := by
        simp only [List.length_append, List.length_cons, List.length_nil]
        omega
      rw [if_neg hlen, hpm]

/-- Witness for `c3_window_boundary_amended`, at `K = 2`, one held packet
`(seq 2, 20)`, expected sequence 1, and the arriving out-of-order packet
`(30, seq 3)`. -/
theorem c3_window_boundary_amended_witness :
    ∃ kmin vmin drest out,
      Reassembler.popMin ([((2 : Int), (20 : Nat))] ++ [(3, 30)]) =
          some ((kmin, vmin), drest) ∧
      (∀ r ∈ ([((2 : Int), (20 : Nat))] ++ [(3, 30)]).map Prod.fst, kmin ≤ r) ∧
      (Reassembler.process ⟨16, 2, .packet, fun _ => 1⟩
          (⟨[(2, 20)], some 1, [], false⟩ : Reassembler.RState Nat)
          (some 30) 3).1.outputQueue = [] ++ (some vmin, true) :: out ∧
      (∀ x ∈ out, x.2 = false) ∧
      (Reassembler.process ⟨16, 2, .packet, fun _ => 1⟩
          (⟨[(2, 20)], some 1, [], false⟩ : Reassembler.RState Nat)
          (some 30) 3).2 = none :=
  (c3_window_boundary_amended ⟨16, 2, .packet, fun _ => 1⟩
      (⟨[(2, 20)], some 1, [], false⟩ : Reassembler.RState Nat) 1 30 3 rfl rfl).2
    (by decide) (by decide) (by decide) (by decide)

namespace RTSPDecoder

/-- A decoder slot in the orchestrator's slot table, abstracted to its id and
whether its `close()` raises (`RTPDecoder.close` is `self.container.close()`
with no error handling of its own). -/
structure Closable where
  ident : Nat
  closeRaises : Bool
  deriving Repr, DecidableEq

/-- The `finally:` body of `CloseAllDictValues`
(`rtsp_decoder/rtsp_decoder.py`): `for closable in closables.values():
closable.close()`.  Returns the ids whose close was attempted, in order, and
`some err` if a close raised (which aborts the loop and propagates, Python
has no per-iteration handler here). -/
def closeAllDictValues : List Closable → List Nat × Option PyErr
  | [] => ([], none)
  | c :: rest =>
    if c.closeRaises then ([c.ident], some .valueError)
    else
      let (attempted, err) := closeAllDictValues rest
      (c.ident :: attempted, err)

end RTSPDecoder

/-- C7 counterexample: with two decoder slots where the first slot's close
raises, `CloseAllDictValues` attempts only the first close — the error is
not contained, it propagates and the second slot is never closed,
contradicting the claim that an error while closing one slot does not
prevent the close of any remaining slot. -/
theorem c7_close_containment_counterexample :
    RTSPDecoder.closeAllDictValues [⟨0, true⟩, ⟨1, false⟩] =
        ([0], some .valueError) ∧
      (1 : Nat) ∉ (RTSPDecoder.closeAllDictValues [⟨0, true⟩, ⟨1, false⟩]).1 := by
  decide

/-- C7 amended: when the orchestrator run ends, close is attempted on the
slots in table order only up to and including the first slot whose close
raises; that error propagates out of the `finally` block and the remaining
slots are not closed.  If no close raises, every slot is closed and no error
escapes. -/
theorem c7_close_containment_amended (a b : List RTSPDecoder.Closable)
    (c : RTSPDecoder.Closable)
    (ha : ∀ s ∈ a, s.closeRaises = false) (hc : c.closeRaises = true) :
    RTSPDecoder.closeAllDictValues (a ++ c :: b) =
        (a.map RTSPDecoder.Closable.ident ++ [c.ident], some .valueError) ∧
      (∀ l : List RTSPDecoder.Closable, (∀ s ∈ l, s.closeRaises = false) →
        RTSPDecoder.closeAllDictValues l = (l.map RTSPDecoder.Closable.ident, none)) := by
  have hok : ∀ l : List RTSPDecoder.Closable, (∀ s ∈ l, s.closeRaises = false) →
      RTSPDecoder.closeAllDictValues l = (l.map RTSPDecoder.Closable.ident, none) := by
    intro l
    induction l with
    | nil => intro _; rfl
    | cons hd tl ih =>
      intro hl
      have hhd : hd.closeRaises = false := hl hd (List.mem_cons_self hd tl)
      simp only [RTSPDecoder.closeAllDictValues, hhd, Bool.false_eq_true, if_false,
        ih (fun s hs => hl s (List.mem_cons_of_mem hd hs)), List.map_cons]
  refine ⟨?_, hok⟩
  induction a with
  | nil =>
    simp only [List.nil_append, List.map_nil]
    simp [RTSPDecoder.closeAllDictValues, hc]
  | cons hd tl ih =>
    have hhd : hd.closeRaises = false := ha hd (List.mem_cons_self hd tl)
    have ihtl := ih (fun s hs => ha s (List.mem_cons_of_mem hd hs))
    simp [List.cons_append, RTSPDecoder.closeAllDictValues, hhd, ihtl]

/-- Witness for `c7_close_containment_amended`: one healthy slot, then a
raising slot, then one more slot that is never reached. -/
theorem c7_close_containment_amended_witness :
    RTSPDecoder.closeAllDictValues ([⟨0, false⟩] ++ ⟨1, true⟩ :: [⟨2, false⟩]) =
        ([⟨0, false⟩].map RTSPDecoder.Closable.ident ++ [1], some .valueError) ∧
      (∀ l : List RTSPDecoder.Closable, (∀ s ∈ l, s.closeRaises = false) →
        RTSPDecoder.closeAllDictValues l = (l.map RTSPDecoder.Closable.ident, none)) :=
  c7_close_containment_amended [⟨0, false⟩] [⟨2, false⟩] ⟨1, true⟩ (by decide) (by decide)

namespace RTSPDataExtractor

/-- Transport protocol of a flow (`IPProto` in `rtsp_decoder/rtsp.py`). -/
inductive IPProto where
  | tcp : IPProto
  | udp : IPProto
  deriving Repr, DecidableEq

/-- `FiveTuple` (`rtsp_decoder/rtsp.py`). -/
structure FiveTuple where
  src_ip : String
  dst_ip : String
  src_port : Nat
  dst_port : Nat
  proto : IPProto
  deriving Repr, DecidableEq

/-- `FiveTuple.__hash__` / `__eq__`: the flow key is the lexicographically
sorted pair of `ip:port` endpoint strings together with the protocol, so the
two directions of a flow share one key. -/
def canonKey (ft : FiveTuple) : String × String × IPProto :=
  let peer1 := ft.src_ip ++ ":" ++ toString ft.src_port
  let peer2 := ft.dst_ip ++ ":" ++ toString ft.dst_port
  if peer1 ≤ peer2 then (peer1, peer2, ft.proto) else (peer2, peer1, ft.proto)

/-- `RTPID`: flow key, SSRC and payload type, with the flow part
canonicalised the way the Python dict hashes `FiveTuple`. -/
abbrev RTPID : Type := (String × String × IPProto) × Nat × Nat

/-- One SDP media description, reduced to the fields the orchestrator reads
(`get_payload_type_from_sdp_media` returns `sdp_media["payloads"]`). -/
structure SDPMedia where
  payloadType : Nat
  codecName : String
  deriving Repr, DecidableEq

/-- `RTSPDataExtractor._get_sdp_media_for_rtp_stream`: first media whose
payload type matches. -/
def get_sdp_media_for_rtp_stream (sdp : List SDPMedia) (payload_type : Nat) :
    Option SDPMedia :=
  sdp.find? (fun m => m.payloadType = payload_type)

/-- The tasks yielded to the decoder pool (`rtsp_decoder/task.py`). -/
inductive Task where
  | createDecoder (ident : Nat) (sdp_media : SDPMedia) : Task
  | processRTPPacket (ident : Nat) (rtp_packet : RTPPacket) : Task
  deriving Repr, DecidableEq

/-- The orchestrator state that `_handle_rtp_packet` touches:
`_current_ident` and `_rtp_id_to_ident`. -/
structure ExtractorState where
  currentIdent : Nat := 0
  rtpIdToIdent : List (RTPID × Nat) := []
  deriving Repr, DecidableEq

/-- Python dict lookup `self._rtp_id_to_ident[rtpid]`. -/
def lookupIdent (m : List (RTPID × Nat)) (k : RTPID) : Option Nat :=
  (m.find? (fun p => p.1 = k)).map Prod.snd

/-- `RTSPDataExtractor._handle_rtp_packet` together with `_get_next_ident`:
on a known identity, yield a `ProcessRTPPacket` task under the stored id; on
a fresh identity, look the SDP media up by payload type — if none matches
the code runs `invalid_five_tuples.append(five_tuple)` / `continue`, but
`invalid_five_tuples` is a local of `process_next` that is not in scope here
and `continue` appears outside any loop, so Python fails (`SyntaxError` when
the module loads; read as `return`, a `NameError` at run time) — modelled as
`.error .nameError`.  Otherwise allocate `_current_ident`, bump the counter,
record the binding and yield `CreateDecoder` then `ProcessRTPPacket`. -/
def handle_rtp_packet (st : ExtractorState) (sdp : List SDPMedia)
    (ft : FiveTuple) (pkt : RTPPacket) :
    Except PyErr (ExtractorState × List Task) :=
  let rtpid : RTPID := (canonKey ft, pkt.ssrc, pkt.payload_type)
  match lookupIdent st.rtpIdToIdent rtpid with
  | some ident => .ok (st, [.processRTPPacket ident pkt])
  | none =>
    match get_sdp_media_for_rtp_stream sdp pkt.payload_type with
    | none => .error .nameError
    | some media =>
      let ident := st.currentIdent
      .ok ({ currentIdent := st.currentIdent + 1,
             rtpIdToIdent := st.rtpIdToIdent ++ [(rtpid, ident)] },
           [.createDecoder ident media, .processRTPPacket ident pkt])

/-- An admitted `OnRTP` event: the associated session's SDP medias, the flow
and the parsed RTP packet. -/
structure RTPEvent where
  sdp : List SDPMedia
  flow : FiveTuple
  packet : RTPPacket

/-- The identity of an event. -/
def eventIdent (ev : RTPEvent) : RTPID :=
  (canonKey ev.flow, ev.packet.ssrc, ev.packet.payload_type)

/-- Fold `_handle_rtp_packet` over a run's events; an uncaught exception
kills the `process_next` generator, so it aborts the run with the state
unchanged by the failing event. -/
def processEvents (st : ExtractorState) : List RTPEvent → ExtractorState
  | [] => st
  | ev :: rest =>
    match handle_rtp_packet st ev.sdp ev.flow ev.packet with
    | .ok (st', _) => processEvents st' rest
    | .error _ => st

theorem lookupIdent_cons (hd : RTPID × Nat) (tl : List (RTPID × Nat)) (k : RTPID) :
    lookupIdent (hd :: tl) k =
      if hd.1 = k then some hd.2 else lookupIdent tl k := by
  by_cases hk : hd.1 = k <;> simp [lookupIdent, List.find?, hk]

theorem lookupIdent_append_of_some {m m2 : List (RTPID × Nat)} {k : RTPID}
    {d : Nat} (h : lookupIdent m k = some d) : lookupIdent (m ++ m2) k = some d := by
  induction m with
  | nil => simp [lookupIdent] at h
  | cons hd tl ih =>
    rw [List.cons_append, lookupIdent_cons]
    rw [lookupIdent_cons] at h
    by_cases hk : hd.1 = k
    · rwa [if_pos hk] at h ⊢
    · rw [if_neg hk] at h ⊢
      exact ih h

theorem handle_rtp_packet_preserves {st : ExtractorState} {sdp : List SDPMedia}
    {ft : FiveTuple} {pkt : RTPPacket} {st' : ExtractorState} {ts : List Task}
    (h : handle_rtp_packet st sdp ft pkt = .ok (st', ts)) :
    (∀ k d, lookupIdent st.rtpIdToIdent k = some d →
      lookupIdent st'.rtpIdToIdent k = some d) ∧
      st.currentIdent ≤ st'.currentIdent := by
  simp only [handle_rtp_packet] at h
  cases hl : lookupIdent st.rtpIdToIdent (canonKey ft, pkt.ssrc, pkt.payload_type) with
  | some ident =>
    rw [hl] at h
    simp only [Except.ok.injEq, Prod.mk.injEq] at h
    obtain ⟨rfl, rfl⟩ := h
    exact ⟨fun k d hk => hk, le_refl _⟩
  | none =>
    rw [hl] at h
    cases hm : get_sdp_media_for_rtp_stream sdp pkt.payload_type with
    | none => rw [hm] at h; exact absurd h (by simp)
    | some media =>
      rw [hm] at h
      simp only [Except.ok.injEq, Prod.mk.injEq] at h
      obtain ⟨rfl, rfl⟩ := h
      exact ⟨fun k d hk => lookupIdent_append_of_some hk, Nat.le_succ _⟩

end RTSPDataExtractor

/-- C6: when an RTP packet with an unknown identity arrives and no SDP media
of the associated session matches its payload type, `_handle_rtp_packet`
does **not** mark the identity invalid and return silently — it fails: the
marking statement is `invalid_five_tuples.append(five_tuple)` followed by
`continue`, but `invalid_five_tuples` is a local variable of `process_next`
(out of scope here) and `continue` sits outside any loop, which is a Python
`SyntaxError` at import time (read charitably as `return`, still a
`NameError` at run time).  Moreover it records the flow 5-tuple, not the
`(flow, SSRC, payload type)` identity, and the list it targets is consulted
only by the UDP pass.  The claim describes the spec's intent; the code is a
slip. -/
theorem c6_association_failure_raises (st : RTSPDataExtractor.ExtractorState)
    (sdp : List RTSPDataExtractor.SDPMedia) (ft : RTSPDataExtractor.FiveTuple)
    (pkt : RTPPacket)
    (hunknown : RTSPDataExtractor.lookupIdent st.rtpIdToIdent
      (RTSPDataExtractor.canonKey ft, pkt.ssrc, pkt.payload_type) = none)
    (hnomedia : ∀ m ∈ sdp, m.payloadType ≠ pkt.payload_type) :
    RTSPDataExtractor.handle_rtp_packet st sdp ft pkt = .error .nameError := by
  simp only [RTSPDataExtractor.handle_rtp_packet]
  rw [hunknown]
  have hm : RTSPDataExtractor.get_sdp_media_for_rtp_stream sdp pkt.payload_type = none := by
    unfold RTSPDataExtractor.get_sdp_media_for_rtp_stream
    rw [List.find?_eq_none]
    intro m hm
    simpa using hnomedia m hm
  rw [hm]

/-- Witness for `c6_association_failure_raises`: fresh state, an SDP with
one media of payload type 97, and an RTP packet of payload type 96. -/
theorem c6_association_failure_raises_witness :
    RTSPDataExtractor.handle_rtp_packet {} [⟨97, "mpeg4-generic"⟩]
        ⟨"10.0.0.1", "10.0.0.2", 6000, 5000, .udp⟩
        ⟨false, 96, 17, 0, 5, [0x00]⟩ = .error .nameError :=
  c6_association_failure_raises {} [⟨97, "mpeg4-generic"⟩]
    ⟨"10.0.0.1", "10.0.0.2", 6000, 5000, .udp⟩ ⟨false, 96, 17, 0, 5, [0x00]⟩
    rfl (by decide)

/-- C8: (i) once an identity is bound to a decoder id, the binding survives
any further sequence of RTP events (the map entry is never reassigned);
(ii) `_current_ident` never decreases across a run; (iii) a packet whose
identity is already bound is handled under exactly that id, leaving the
state untouched; (iv) a fresh identity that matches an SDP media is bound to
the current counter value and the counter is incremented, so fresh
identities receive ids from a monotonically increasing counter. -/
theorem c8_identity_to_decoder_id_stability :
    (∀ (st : RTSPDataExtractor.ExtractorState)
        (evs : List RTSPDataExtractor.RTPEvent) (k : RTSPDataExtractor.RTPID)
        (d : Nat),
      RTSPDataExtractor.lookupIdent st.rtpIdToIdent k = some d →
      RTSPDataExtractor.lookupIdent
        (RTSPDataExtractor.processEvents st evs).rtpIdToIdent k = some d) ∧
    (∀ (st : RTSPDataExtractor.ExtractorState)
        (evs : List RTSPDataExtractor.RTPEvent),
      st.currentIdent ≤ (RTSPDataExtractor.processEvents st evs).currentIdent) ∧
    (∀ (st : RTSPDataExtractor.ExtractorState)
        (sdp : List RTSPDataExtractor.SDPMedia) (ft : RTSPDataExtractor.FiveTuple)
        (pkt : RTPPacket) (d : Nat),
      RTSPDataExtractor.lookupIdent st.rtpIdToIdent
          (RTSPDataExtractor.canonKey ft, pkt.ssrc, pkt.payload_type) = some d →
      RTSPDataExtractor.handle_rtp_packet st sdp ft pkt =
        .ok (st, [.processRTPPacket d pkt])) ∧
    (∀ (st : RTSPDataExtractor.ExtractorState)
        (sdp : List RTSPDataExtractor.SDPMedia) (ft : RTSPDataExtractor.FiveTuple)
        (pkt : RTPPacket) (media : RTSPDataExtractor.SDPMedia),
      RTSPDataExtractor.lookupIdent st.rtpIdToIdent
          (RTSPDataExtractor.canonKey ft, pkt.ssrc, pkt.payload_type) = none →
      RTSPDataExtractor.get_sdp_media_for_rtp_stream sdp pkt.payload_type =
        some media →
      RTSPDataExtractor.handle_rtp_packet st sdp ft pkt =
        .ok ({ currentIdent := st.currentIdent + 1,
               rtpIdToIdent := st.rtpIdToIdent ++
                 [((RTSPDataExtractor.canonKey ft, pkt.ssrc, pkt.payload_type),
                   st.currentIdent)] },
             [.createDecoder st.currentIdent media,
              .processRTPPacket st.currentIdent pkt])) := by
  refine ⟨?_, ?_, ?_, ?_⟩
  · intro st evs
    induction evs generalizing st with
    | nil => intro k d h; exact h
    | cons ev rest ih =>
      intro k d h
      simp only [RTSPDataExtractor.processEvents]
      cases hh : RTSPDataExtractor.handle_rtp_packet st ev.sdp ev.flow ev.packet with
      | ok p =>
        obtain ⟨st', ts⟩ := p
        exact ih st' k d ((RTSPDataExtractor.handle_rtp_packet_preserves hh).1 k d h)
      | error e => exact h
  · intro st evs
    induction evs generalizing st with
    | nil => exact le_refl _
    | cons ev rest ih =>
      simp only [RTSPDataExtractor.processEvents]
      cases hh : RTSPDataExtractor.handle_rtp_packet st ev.sdp ev.flow ev.packet with
      | ok p =>
        obtain ⟨st', ts⟩ := p
        exact le_trans (RTSPDataExtractor.handle_rtp_packet_preserves hh).2 (ih st')
      | error e => exact le_refl _
  · intro st sdp ft pkt d h
    simp only [RTSPDataExtractor.handle_rtp_packet]
    rw [h]
  · intro st sdp ft pkt media hnone hmedia
    simp only [RTSPDataExtractor.handle_rtp_packet]
    rw [hnone, hmedia]

/-- Witness for `c8_identity_to_decoder_id_stability`: an identity bound to
id 7 stays bound to 7, and a fresh identity matching an SDP media is bound
to the current counter value 0 with the counter bumped to 1. -/
theorem c8_identity_to_decoder_id_stability_witness :
    RTSPDataExtractor.lookupIdent
        (RTSPDataExtractor.processEvents
          ⟨8, [((("a:1", "b:2", .udp), 5, 96), 7)]⟩ []).rtpIdToIdent
        (("a:1", "b:2", .udp), 5, 96) = some 7 ∧
      RTSPDataExtractor.handle_rtp_packet ⟨0, []⟩ [⟨96, "H264"⟩]
          ⟨"a", "b", 1, 2, .udp⟩ ⟨false, 96, 3, 0, 5, [0x41]⟩ =
        .ok (⟨1, [((RTSPDataExtractor.canonKey ⟨"a", "b", 1, 2, .udp⟩, 5, 96), 0)]⟩,
          [.createDecoder 0 ⟨96, "H264"⟩,
           .processRTPPacket 0 ⟨false, 96, 3, 0, 5, [0x41]⟩]) :=
  ⟨c8_identity_to_decoder_id_stability.1
      ⟨8, [((("a:1", "b:2", .udp), 5, 96), 7)]⟩ []
      (("a:1", "b:2", .udp), 5, 96) 7 (by decide),
    c8_identity_to_decoder_id_stability.2.2.2
      ⟨0, []⟩ [⟨96, "H264"⟩] ⟨"a", "b", 1, 2, .udp⟩
      ⟨false, 96, 3, 0, 5, [0x41]⟩ ⟨96, "H264"⟩ rfl (by decide)⟩

namespace RTSPSession

/-- `RTSPSessionState` (`rtsp_decoder/rtsp_session.py`). -/
inductive SessionState where
  | processingRTSP : SessionState
  | rtspReady : SessionState
  | processingRTP : SessionState
  | done : SessionState
  | invalid : SessionState
  deriving Repr, DecidableEq

/-- The enum value of each state; the claimed forward order is the order of
these values. -/
def SessionState.rank : SessionState → Nat
  | .processingRTSP => 0
  | .rtspReady => 1
  | .processingRTP => 2
  | .done => 3
  | .invalid => 4

/-- `RTSPTransportHeader` (protocol token plus options). -/
structure RTSPTransportHeader where
  protocol : String
  options : List (String × Option String)
  deriving Repr, DecidableEq

/-- `RTSPTransportHeader.parse`: split on `;`, casefold the protocol, split
each option once on `=` (value absent when there is no `=`), casefold keys.
`str.casefold` is modelled as `String.toLower` (they agree on the ASCII
header text this code consumes). -/
def parseTransportHeader (header_str : String) : RTSPTransportHeader :=
  match header_str.splitOn ";" with
  | [] => ⟨"", []⟩  -- unreachable: `splitOn` never returns an empty list
  | proto :: opts =>
    ⟨proto.toLower,
     opts.map (fun o =>
       match o.splitOn "=" with
       | [] => ("", none)  -- unreachable
       | [k] => (k.toLower, none)
       | k :: rest => (k.toLower, some (String.intercalate "=" rest)))⟩

/-- Outcome of parsing the buffered bytes as one RTSP response.  The parser
is dpkt's HTTP `Response` subclassed for RTSP (`dpkt_helpers/rtsp.py`) — an
external library; the `rtsp_decoder` copy of that helper module is not among
the sources — so the session machine is parametric over it (§4.2 of the
spec gives its contract: `NeedData`, `UnpackError`, or status / headers /
body / leftover, with header names lowercased by dpkt). -/
inductive RTSPParseResult where
  | needData : RTSPParseResult
  | unpackError : RTSPParseResult
  | ok (status : Int) (headers : List (String × String)) (body : List Nat)
      (leftover : List Nat) : RTSPParseResult

/-- The session machine's external collaborators: the RTSP response parser
and the SDP parser (`sdp_transform.parse`, external). -/
structure Externals where
  parseResponse : List Nat → RTSPParseResult
  parseSdp : List Nat → List RTSPDataExtractor.SDPMedia

/-- `RTSP_PORTS` (from wireshark). -/
def RTSP_PORTS : List Nat := [554, 8554, 7236]

/-- A TCP segment as `process_packet` reads it from the dpkt layers. -/
structure TCPSegment where
  sport : Nat
  dport : Nat
  fin : Bool
  urg : Bool
  urp : Nat
  seq : Int
  data : List Nat
  deriving Repr, DecidableEq

/-- The transport payload of an IP packet. -/
inductive IPPayload where
  | tcp (seg : TCPSegment) : IPPayload
  | other : IPPayload
  deriving Repr, DecidableEq

/-- An IP packet (source/destination address strings as `inet_to_str` yields
them, plus the transport layer). -/
structure IPPacket where
  src : String
  dst : String
  payload : IPPayload
  deriving Repr, DecidableEq

/-- The mutable state of `RTSPSession`. -/
structure Session where
  serverIp : Option String := none
  clientIp : Option String := none
  sdp : Option (List RTSPDataExtractor.SDPMedia) := none
  transportHeaders : List RTSPTransportHeader := []
  controlChannels : List Nat := []
  dataChannels : List Nat := []
  reasm : Reassembler.RState (List Nat) := {}
  state : SessionState := .processingRTSP
  buffer : List Nat := []
  currentChannel : Int := -1
  currentRtpLength : Int := -1

/-- The session's data-mode byte reassembler:
`Reassembler[bytes](TCP_SEQ_SIZE_IN_BITS = 32, MAX_OUT_OF_ORDER = 30, "data")`. -/
def sessionReasmParams : Reassembler.Params (List Nat) := ⟨32, 30, .data, List.length⟩

/-- Case-insensitive header lookup (dpkt stores names lowercased). -/
def headerLookup (headers : List (String × String)) (name : String) : Option String :=
  (headers.find? (fun h => h.1 = name)).map Prod.snd

/-- `self.sdp is not None and len(get_sdp_medias(self.sdp)) ==
len(self.transport_headers)`. -/
def sdpComplete (s : Session) : Bool :=
  match s.sdp with
  | some medias => medias.length = s.transportHeaders.length
  | none => false

/-- `RTSPSession._parse_rtsp_response`: try to parse one response out of the
accumulator; store an SDP from a 200 `application/sdp` body, or append a
parsed `Transport:` header on a 200 SETUP response and mark the session DONE
once there is one header per SDP media. -/
def parseRtspResponseStep (ext : Externals) (s : Session) : Session :=
  match ext.parseResponse s.buffer with
  | .needData => s
  | .unpackError => { s with buffer := [] }
  | .ok status headers body leftover =>
    let s := { s with buffer := leftover }
    if body ≠ [] ∧ status = 200 ∧
        (headerLookup headers "content-type").map String.toLower =
          some "application/sdp" then
      { s with sdp := some (ext.parseSdp body) }
    else
      match headerLookup headers "transport" with
      | some t =>
        if status = 200 then
          let s := { s with transportHeaders :=
            s.transportHeaders ++ [parseTransportHeader t] }
          if sdpComplete s then { s with state := .done } else s
        else s
      | none => s

/-- Reattach the unread part of the reassembler output queue to the session. -/
def requeue (s : Session) (q : List (Option (List Nat) × Bool)) : Session :=
  { s with reasm := { s.reasm with outputQueue := q } }

/-- The loop body of `RTSPSession._process_out_packets`: while the state is
PROCESSING_RTSP, pop the reassembler queue; the `(None, _)` sentinel marks
the session DONE; a skipped chunk either marks the session DONE (when the
SDP and all transport headers were already collected) or clears the
accumulator; otherwise append the chunk and try to parse a response. -/
def processOutPacketsGo (ext : Externals) :
    List (Option (List Nat) × Bool) → Session → Session
  | q, s =>
    if s.state ≠ .processingRTSP then requeue s q
    else
      match q with
      | [] => requeue s []  -- EmptyQueueException → break
      | (outPacket, skipped) :: rest =>
        match outPacket with
        | none => requeue { s with state := .done } rest
        | some chunk =>
          if skipped ∧ sdpComplete s then requeue { s with state := .done } rest
          else
            let s1 := if skipped then { s with buffer := [] } else s
            let s2 := { s1 with buffer := s1.buffer ++ chunk }
            processOutPacketsGo ext rest (parseRtspResponseStep ext s2)

/-- `RTSPSession._process_out_packets`. -/
def processOutPackets (ext : Externals) (s : Session) : Session :=
  processOutPacketsGo ext s.reasm.outputQueue s

/-- `RTSPSession.process_packet`.  A raising `Reassembler.process` (already
finalized) propagates, leaving the mutations made so far in place. -/
def processPacket (ext : Externals) (s : Session) (ip : Option IPPacket) :
    Session × Option PyErr :=
  match ip with
  | none =>
    match Reassembler.process sessionReasmParams s.reasm none (-1) with
    | (r', some e) => ({ s with reasm := r' }, some e)
    | (r', none) =>
      let s1 := processOutPackets ext { s with reasm := r' }
      ({ s1 with state := .done }, none)
  | some ip =>
    match ip.payload with
    | .other => (s, none)  -- "Unexpected protocol"
    | .tcp seg =>
      if seg.sport ∉ RTSP_PORTS then (s, none)  -- "Unexpected port"
      else
        let s := if s.clientIp = none ∧ s.serverIp = none then
          { s with serverIp := some ip.src, clientIp := some ip.dst } else s
        if seg.fin then
          match Reassembler.process sessionReasmParams s.reasm none (-1) with
          | (r', some e) => ({ s with reasm := r' }, some e)
          | (r', none) =>
            let s1 := processOutPackets ext { s with reasm := r' }
            ({ s1 with state := .done }, none)
        else if seg.data = [] ∨ (seg.urg ∧ seg.urp = 0) then (s, none)
        else
          let e := if seg.urg then seg.urp else seg.data.length
          let payload := seg.data.take e
          match Reassembler.process sessionReasmParams s.reasm (some payload) seg.seq with
          | (r', some err) => ({ s with reasm := r' }, some err)
          | (r', none) => (processOutPackets ext { s with reasm := r' }, none)

/-- `RTSPSession._parse_interleaved_header` (after its length assertion):
magic byte, channel byte, 2-byte **big-endian** length. -/
def parseInterleavedHeader (header : List Nat) : Nat × Nat × Nat :=
  (header.headD 0, header.getD 1 0, 256 * header.getD 2 0 + header.getD 3 0)

/-- `RTSPSession._valid_interleaved_header`: magic `0x24`, channel in the
session's control or data channel lists, `12 ≤ length ≤ 8192`. -/
def validInterleavedHeader (controlChannels dataChannels : List Nat)
    (magic channel length : Nat) : Bool :=
  decide (magic = 0x24 ∧ (channel ∈ controlChannels ∨ channel ∈ dataChannels) ∧
    12 ≤ length ∧ length ≤ 8192)

/-- The `while True:` framing loop inside `RTSPSession.get_rtp`: with at
least 4 buffered bytes, parse the interleaved header; on an invalid header
scan forward to the byte after the next `0x24` (clearing the buffer when
there is none); on a valid header with the full payload available, emit the
payload when the channel is a data channel (control-channel payloads are
discarded) and drop the frame from the buffer.  Returns the emitted frame
payloads and the final buffer. -/
def processBuffer (controlChannels dataChannels : List Nat) (buffer : List Nat) :
    List (List Nat) × List Nat :=
  if buffer.length < 4 then ([], buffer)
  else
    let magic := buffer.headD 0
    let channel := buffer.getD 1 0
    let length := 256 * buffer.getD 2 0 + buffer.getD 3 0
    if validInterleavedHeader controlChannels dataChannels magic channel length then
      if (buffer.drop 4).length < length then ([], buffer)
      else
        let payload := (buffer.drop 4).take length
        let rest := buffer.drop (4 + length)
        let (outs, final) := processBuffer controlChannels dataChannels rest
        ((if channel ∈ dataChannels then payload :: outs else outs), final)
    else
      match (buffer.drop 1).findIdx? (fun b => b = 0x24) with
      | none => ([], [])
      | some idx => processBuffer controlChannels dataChannels (buffer.drop (idx + 1))
termination_by buffer.length
decreasing_by
  · simp only [List.length_drop]
    omega
  · simp only [List.length_drop]
    omega

/-- The generator body of `RTSPSession.get_rtp`, iterated to exhaustion over
the reassembler output queue.  Falsy chunks (the `None` sentinel and empty
byte strings) are skipped; a gap-flagged chunk re-synchronises on the magic
byte (the header parse asserts at least 4 buffered bytes — a shorter buffer
raises `AssertionError`, which aborts the generator); otherwise the chunk is
appended and the framing loop runs.  Returns the final accumulator buffer,
the emitted RTP payloads, the error if one was raised, and the unread rest
of the queue. -/
def getRtpGo (controlChannels dataChannels : List Nat) :
    List (Option (List Nat) × Bool) → List Nat → List (List Nat) →
      List Nat × List (List Nat) × Option PyErr × List (Option (List Nat) × Bool)
  | [], buffer, acc => (buffer, acc, none, [])
  | (outPacket, skipped) :: rest, buffer, acc =>
    match outPacket with
    | none => getRtpGo controlChannels dataChannels rest buffer acc
    | some chunk =>
      if chunk = [] then getRtpGo controlChannels dataChannels rest buffer acc
      else if skipped then
        if buffer.length < 4 then (buffer, acc, some .assertError, rest)
        else
          let (magic, channel, length) := parseInterleavedHeader buffer
          let buffer1 :=
            if validInterleavedHeader controlChannels dataChannels magic channel length then
              buffer ++ List.replicate (length - (buffer.drop 4).length) 0
            else []
          let buffer2 :=
            if 0x24 ∈ chunk then
              buffer1 ++ chunk.drop (chunk.findIdx (fun b => b = 0x24))
            else buffer1
          if buffer2 = [] then getRtpGo controlChannels dataChannels rest buffer2 acc
          else
            let (outs, buffer3) := processBuffer controlChannels dataChannels buffer2
            getRtpGo controlChannels dataChannels rest buffer3 (acc ++ outs)
      else
        let (outs, buffer3) :=
          processBuffer controlChannels dataChannels (buffer ++ chunk)
        getRtpGo controlChannels dataChannels rest buffer3 (acc ++ outs)

/-- `RTSPSession.get_rtp`, fully iterated: on entry a session not in
PROCESSING_RTP has its accumulator cleared and moves to PROCESSING_RTP
(also from DONE); then every queued reassembler output is consumed. -/
def getRtp (s : Session) : Session × List (List Nat) × Option PyErr :=
  let s :=
    if s.state ≠ .processingRTP then
      { s with buffer := [], state := .processingRTP }
    else s
  let (buffer', outs, err, restq) :=
    getRtpGo s.controlChannels s.dataChannels s.reasm.outputQueue s.buffer []
  ({ s with buffer := buffer', reasm := { s.reasm with outputQueue := restq } },
   outs, err)

end RTSPSession

namespace RTSPSession

theorem parseRtspResponseStep_state (ext : Externals) (s : Session) :
    (parseRtspResponseStep ext s).state = s.state ∨
      (parseRtspResponseStep ext s).state = .done := by
  unfold parseRtspResponseStep
  cases hp : ext.parseResponse s.buffer with
  | needData => exact Or.inl rfl
  | unpackError => exact Or.inl rfl
  | ok status headers body leftover =>
    dsimp only
    split
    · exact Or.inl rfl
    · split
      · split
        · split
          · exact Or.inr rfl
          · exact Or.inl rfl
        · exact Or.inl rfl
      · exact Or.inl rfl

theorem processOutPacketsGo_state (ext : Externals) :
    ∀ (q : List (Option (List Nat) × Bool)) (s : Session),
      (processOutPacketsGo ext q s).state = s.state ∨
        (processOutPacketsGo ext q s).state = .done := by
  intro q
  induction q with
  | nil =>
    intro s
    unfold processOutPacketsGo
    split
    · exact Or.inl rfl
    · exact Or.inl rfl
  | cons item rest ih =>
    intro s
    unfold processOutPacketsGo
    by_cases hst : s.state ≠ .processingRTSP
    · simp only [if_pos hst]
      exact Or.inl rfl
    · simp only [if_neg hst]
      obtain ⟨outPacket, skipped⟩ := item
      cases outPacket with
      | none => exact Or.inr rfl
      | some chunk =>
        by_cases hsk : skipped ∧ sdpComplete s = true
        · simp only [if_pos hsk]
          exact Or.inr rfl
        · simp only [if_neg hsk]
          have hs2 : (parseRtspResponseStep ext
              { (if skipped then { s with buffer := [] } else s) with
                buffer := (if skipped then { s with buffer := [] } else s).buffer
                  ++ chunk }).state = s.state ∨
              (parseRtspResponseStep ext
                { (if skipped then { s with buffer := [] } else s) with
                  buffer := (if skipped then { s with buffer := [] } else s).buffer
                    ++ chunk }).state = .done := by
            rcases parseRtspResponseStep_state ext _ with h | h
            · rw [h]
              by_cases hb : skipped <;> simp [hb]
            · exact Or.inr h
          rcases ih _ with h | h
          · rw [h] at *
            rcases hs2 with h2 | h2
            · exact Or.inl (by rw [h]; exact h2)
            · exact Or.inr (by rw [h]; exact h2)
          · exact Or.inr h

theorem processOutPackets_state (ext : Externals) (s : Session) :
    (processOutPackets ext s).state = s.state ∨
      (processOutPackets ext s).state = .done :=
  processOutPacketsGo_state ext s.reasm.outputQueue s

theorem rank_le_three {st : SessionState} (h : st ≠ .invalid) :
    st.rank ≤ 3 := by
  cases st <;> simp [SessionState.rank] at h ⊢

end RTSPSession


namespace RTSPSession

theorem processPacket_state (ext : Externals) (s : Session)
    (ip : Option IPPacket) :
    (processPacket ext s ip).1.state = s.state ∨
      (processPacket ext s ip).1.state = .done := by
  unfold processPacket
  cases ip with
  | none =>
    cases hr : Reassembler.process sessionReasmParams s.reasm none (-1) with
    | mk r' err =>
      cases err with
      | none => exact Or.inr rfl
      | some e => exact Or.inl rfl
  | some ip =>
    dsimp only
    cases hpl : ip.payload with
    | other =>
      left
      rfl
    | tcp seg =>
      dsimp only
      by_cases hport : seg.sport ∉ RTSP_PORTS
      · simp only [if_pos hport]
        exact Or.inl trivial
      · simp only [if_neg hport]
        have hstate1 : (if s.clientIp = none ∧ s.serverIp = none then
            { s with serverIp := some ip.src, clientIp := some ip.dst }
          else s).state = s.state := by
          split <;> rfl
        generalize hgen : (if s.clientIp = none ∧ s.serverIp = none then
            { s with serverIp := some ip.src, clientIp := some ip.dst }
          else s) = s1
        rw [hgen] at hstate1
        rw [← hstate1]
        by_cases hfin : seg.fin
        · simp only [hfin, if_pos rfl]
          cases hr : Reassembler.process sessionReasmParams s1.reasm none (-1) with
          | mk r' err =>
            cases err with
            | none => exact Or.inr rfl
            | some e => exact Or.inl rfl
        · simp only [hfin]
          by_cases hempty : seg.data = [] ∨ (seg.urg ∧ seg.urp = 0)
          · simp only [if_pos hempty]
            exact Or.inl rfl
          · simp only [if_neg hempty]
            cases hr : Reassembler.process sessionReasmParams s1.reasm
                (some (seg.data.take (if seg.urg then seg.urp else seg.data.length)))
                seg.seq with
            | mk r' err =>
              cases err with
              | none =>
                dsimp only
                rcases processOutPackets_state ext { s1 with reasm := r' } with h | h
                · exact Or.inl h
                · exact Or.inr h
              | some e => exact Or.inl rfl

end RTSPSession

/-- C5 counterexample: a fresh session's flow ends (`process_packet(None)`),
making the session DONE; iterating `get_rtp` then moves the state **back**
from DONE to PROCESSING_RTP (`if self.state != PROCESSING_RTP: self._state =
PROCESSING_RTP`), so over process_packet / get_rtp sequences the state does
move from a later position of `PROCESSING_RTSP → (RTSP_READY) →
PROCESSING_RTP → DONE` to an earlier one.  (This is exactly how an
interleaved session enters RTP mode: the orchestrator calls `get_rtp` only
on sessions that are already DONE.) -/
theorem c5_state_monotonic_counterexample :
    (RTSPSession.processPacket ⟨fun _ => .needData, fun _ => []⟩ {} none).1.state =
        .done ∧
      (RTSPSession.getRtp
          (RTSPSession.processPacket ⟨fun _ => .needData, fun _ => []⟩ {} none).1).1.state =
        .processingRTP := by
  constructor
  · rfl
  · rfl

/-- C5 amended: `process_packet` is monotonic — for any external parsers and
any session state other than the never-assigned INVALID, it leaves the state
where it was or advances it to DONE; the exception is `get_rtp`, which
always puts the session in PROCESSING_RTP, moving an already-DONE session
backwards along the claimed order. -/
theorem c5_session_state_monotonic_amended :
    (∀ (ext : RTSPSession.Externals) (s : RTSPSession.Session)
        (ip : Option RTSPSession.IPPacket),
      s.state ≠ .invalid →
      RTSPSession.SessionState.rank s.state ≤
        RTSPSession.SessionState.rank (RTSPSession.processPacket ext s ip).1.state) ∧
    (∀ s : RTSPSession.Session,
      (RTSPSession.getRtp s).1.state = .processingRTP) := by
  constructor
  · intro ext s ip hinv
    rcases RTSPSession.processPacket_state ext s ip with h | h
    · rw [h]
    · rw [h]
      exact RTSPSession.rank_le_three hinv
  · intro s
    unfold RTSPSession.getRtp
    by_cases h : s.state ≠ .processingRTP
    · simp only [if_pos h]
    · simp only [if_neg h]
      simp only [not_not] at h
      simpa using h

/-- Witness for `c5_session_state_monotonic_amended`: the fresh session with
trivial external parsers and the end-of-flow input. -/
theorem c5_session_state_monotonic_amended_witness :
    RTSPSession.SessionState.rank
        (({} : RTSPSession.Session)).state ≤
      RTSPSession.SessionState.rank
        (RTSPSession.processPacket ⟨fun _ => .needData, fun _ => []⟩ {} none).1.state ∧
      (RTSPSession.getRtp {}).1.state = .processingRTP :=
  ⟨c5_session_state_monotonic_amended.1 ⟨fun _ => .needData, fun _ => []⟩ {} none
      (by decide),
    c5_session_state_monotonic_amended.2 {}⟩

namespace RTSPSession

/-- One interleaved frame as RFC 2326 §10.12 encodes it: magic `0x24`, the
channel byte, the 2-byte big-endian length, then the payload. -/
def encodeFrame (ch : Nat) (p : List Nat) : List Nat :=
  0x24 :: ch :: (p.length / 256) :: (p.length % 256) :: p

/-- The concatenation of the encodings of a list of `(channel, payload)`
frames. -/
def encodeFrames (frames : List (Nat × List Nat)) : List Nat :=
  (frames.map (fun f => encodeFrame f.1 f.2)).join

theorem findIdx?_magic_append_go {tail : List Nat} :
    ∀ (xs : List Nat) (i : Nat), (∀ x ∈ xs, x ≠ 0x24) →
      (xs ++ 0x24 :: tail).findIdx? (fun b => b = 0x24) i = some (xs.length + i) := by
  intro xs
  induction xs with
  | nil =>
    intro i _
    simp [List.findIdx?_cons]
  | cons x xs ih =>
    intro i hxs
    have hx : x ≠ 0x24 := hxs x (List.mem_cons_self x xs)
    rw [List.cons_append, List.findIdx?_cons]
    have hdx : (decide (x = 0x24)) = false := by
      simp [hx]
    rw [hdx]
    simp only [Bool.false_eq_true, if_false]
    rw [ih (i + 1) (fun y hy => hxs y (List.mem_cons_of_mem x hy))]
    simp only [List.length_cons, Option.some.injEq]
    omega

theorem findIdx?_magic_append {xs tail : List Nat}
    (hxs : ∀ x ∈ xs, x ≠ 0x24) :
    (xs ++ 0x24 :: tail).findIdx? (fun b => b = 0x24) = some xs.length := by
  have h := @findIdx?_magic_append_go tail xs 0 hxs
  simpa using h

theorem findIdx?_magic_none_go :
    ∀ (xs : List Nat) (i : Nat), (∀ x ∈ xs, x ≠ 0x24) →
      xs.findIdx? (fun b => b = 0x24) i = none := by
  intro xs
  induction xs with
  | nil => intro i _; rfl
  | cons x xs ih =>
    intro i hxs
    have hx : x ≠ 0x24 := hxs x (List.mem_cons_self x xs)
    rw [List.findIdx?_cons]
    simp only [decide_eq_true_eq, if_neg hx]
    exact ih (i + 1) (fun y hy => hxs y (List.mem_cons_of_mem x hy))

theorem findIdx?_magic_none {xs : List Nat} (hxs : ∀ x ∈ xs, x ≠ 0x24) :
    xs.findIdx? (fun b => b = 0x24) = none :=
  findIdx?_magic_none_go xs 0 hxs

theorem processBuffer_frame (ccs dcs : List Nat) (ch : Nat) (p rest : List Nat)
    (hch : ch ∈ ccs ∨ ch ∈ dcs) (hp1 : 12 ≤ p.length) (hp2 : p.length ≤ 8192) :
    processBuffer ccs dcs (encodeFrame ch p ++ rest) =
      ((if ch ∈ dcs then p :: (processBuffer ccs dcs rest).1
        else (processBuffer ccs dcs rest).1),
       (processBuffer ccs dcs rest).2) := by
  have hshape : encodeFrame ch p ++ rest =
      0x24 :: ch :: (p.length / 256) :: (p.length % 256) :: (p ++ rest) := by
    simp [encodeFrame]
  rw [hshape]
  rw [processBuffer]
  have hlen4 : ¬ ((0x24 :: ch :: (p.length / 256) :: (p.length % 256) ::
      (p ++ rest)).length < 4) := by
    simp
  rw [if_neg hlen4]
  have hL : 256 * (p.length / 256) + p.length % 256 = p.length :=
    Nat.div_add_mod p.length 256
  have hvalid : validInterleavedHeader ccs dcs
      ((0x24 :: ch :: (p.length / 256) :: (p.length % 256) :: (p ++ rest)).headD 0)
      ((0x24 :: ch :: (p.length / 256) :: (p.length % 256) :: (p ++ rest)).getD 1 0)
      (256 * ((0x24 :: ch :: (p.length / 256) :: (p.length % 256) ::
        (p ++ rest)).getD 2 0) +
        (0x24 :: ch :: (p.length / 256) :: (p.length % 256) ::
          (p ++ rest)).getD 3 0) = true := by
    simp only [List.headD, List.getD, List.get?, validInterleavedHeader,
      Option.getD, hL]
    simp only [decide_eq_true_eq]
    exact ⟨trivial, by tauto, hp1, hp2⟩
  rw [if_pos hvalid]
  simp only [List.headD, List.getD, List.get?, Option.getD] at hvalid ⊢
  have hdrop4 : (0x24 :: ch :: (p.length / 256) :: (p.length % 256) ::
      (p ++ rest)).drop 4 = p ++ rest := rfl
  rw [hdrop4, hL]
  have hnlt : ¬ ((p ++ rest).length < p.length) := by
    simp only [List.length_append]
    omega
  rw [if_neg hnlt]
  have htake : (p ++ rest).take p.length = p := List.take_left p rest
  have hdropall : (0x24 :: ch :: (p.length / 256) :: (p.length % 256) ::
      (p ++ rest)).drop (4 + p.length) = rest := by
    have h1 : (0x24 :: ch :: (p.length / 256) :: (p.length % 256) ::
        (p ++ rest)) = ([0x24, ch, p.length / 256, p.length % 256] ++ p) ++ rest := by
      simp
    rw [h1]
    have h2 : ([0x24, ch, p.length / 256, p.length % 256] ++ p).length =
        4 + p.length := by
      simp only [List.length_append, List.length_cons, List.length_nil]
    rw [← h2]
    exact List.drop_left _ _
  rw [htake, hdropall]

theorem processBuffer_frames (ccs dcs : List Nat)
    (frames : List (Nat × List Nat))
    (hch : ∀ f ∈ frames, f.1 ∈ ccs ∨ f.1 ∈ dcs)
    (hlen : ∀ f ∈ frames, 12 ≤ f.2.length ∧ f.2.length ≤ 8192) :
    processBuffer ccs dcs (encodeFrames frames) =
      ((frames.filter (fun f => decide (f.1 ∈ dcs))).map Prod.snd, []) := by
  induction frames with
  | nil =>
    rw [processBuffer]
    simp [encodeFrames]
  | cons f fs ih =>
    obtain ⟨ch, p⟩ := f
    have henc : encodeFrames ((ch, p) :: fs) =
        encodeFrame ch p ++ encodeFrames fs := by
      simp [encodeFrames]
    rw [henc]
    rw [processBuffer_frame ccs dcs ch p (encodeFrames fs)
      (hch (ch, p) (List.mem_cons_self _ _))
      (hlen (ch, p) (List.mem_cons_self _ _)).1
      (hlen (ch, p) (List.mem_cons_self _ _)).2]
    rw [ih (fun g hg => hch g (List.mem_cons_of_mem _ hg))
      (fun g hg => hlen g (List.mem_cons_of_mem _ hg))]
    by_cases hd : ch ∈ dcs
    · simp [hd, List.filter_cons]
    · simp [hd, List.filter_cons]

theorem processBuffer_junk (ccs dcs : List Nat) (junk : List Nat)
    (frames : List (Nat × List Nat)) (hjunk : ∀ b ∈ junk, b ≠ 0x24) :
    (processBuffer ccs dcs (junk ++ encodeFrames frames)).1 =
      (processBuffer ccs dcs (encodeFrames frames)).1 := by
  cases junk with
  | nil => rw [List.nil_append]
  | cons j junk' =>
    have hj : j ≠ 0x24 := hjunk j (List.mem_cons_self j junk')
    have hjunk' : ∀ b ∈ junk', b ≠ 0x24 :=
      fun b hb => hjunk b (List.mem_cons_of_mem j hb)
    cases frames with
    | nil =>
      have henc0 : encodeFrames [] = [] := rfl
      rw [henc0, List.append_nil]
      rw [processBuffer]
      by_cases h4 : (j :: junk').length < 4
      · rw [if_pos h4]
        rw [processBuffer]
        simp
      · rw [if_neg h4]
        have hinvalid : validInterleavedHeader ccs dcs ((j :: junk').headD 0)
            ((j :: junk').getD 1 0)
            (256 * (j :: junk').getD 2 0 + (j :: junk').getD 3 0) = false := by
          simp only [validInterleavedHeader, List.headD, decide_eq_false_iff_not]
          intro hcontra
          exact hj hcontra.1
        simp only [hinvalid, Bool.false_eq_true, if_false]
        rw [List.drop_one, List.tail_cons, findIdx?_magic_none hjunk']
        rw [processBuffer]
        simp
    | cons f fs =>
      obtain ⟨ch, p⟩ := f
      have hshape : encodeFrames ((ch, p) :: fs) =
          0x24 :: (ch :: (p.length / 256) :: (p.length % 256) :: p
            ++ encodeFrames fs) := by
        simp [encodeFrames, encodeFrame]
      have hlen4 : ¬ (((j :: junk') ++ encodeFrames ((ch, p) :: fs)).length < 4) := by
        rw [hshape]
        simp
        omega
      rw [processBuffer, if_neg hlen4]
      have hhead : ((j :: junk') ++ encodeFrames ((ch, p) :: fs)).headD 0 = j := rfl
      have hinvalid : validInterleavedHeader ccs dcs
          (((j :: junk') ++ encodeFrames ((ch, p) :: fs)).headD 0)
          (((j :: junk') ++ encodeFrames ((ch, p) :: fs)).getD 1 0)
          (256 * ((j :: junk') ++ encodeFrames ((ch, p) :: fs)).getD 2 0 +
            ((j :: junk') ++ encodeFrames ((ch, p) :: fs)).getD 3 0) = false := by
        rw [hhead]
        simp only [validInterleavedHeader, decide_eq_false_iff_not]
        intro hcontra
        exact hj hcontra.1
      simp only [hinvalid, Bool.false_eq_true, if_false]
      have hdrop1 : ((j :: junk') ++ encodeFrames ((ch, p) :: fs)).drop 1 =
          junk' ++ encodeFrames ((ch, p) :: fs) := rfl
      rw [hdrop1, hshape, findIdx?_magic_append hjunk']
      dsimp only
      have hdropfull : ((j :: junk') ++ (0x24 :: (ch :: (p.length / 256) ::
          (p.length % 256) :: p ++ encodeFrames fs))).drop (junk'.length + 1) =
          0x24 :: (ch :: (p.length / 256) :: (p.length % 256) :: p
            ++ encodeFrames fs) := by
        have h2 : (j :: junk').length = junk'.length + 1 := by simp
        rw [← h2]
        exact List.drop_left _ _
      rw [hdropfull]

end RTSPSession

namespace RTSPSession

theorem getRtpGo_single_chunk (ccs dcs : List Nat) (chunk : List Nat)
    (hne : chunk ≠ []) :
    getRtpGo ccs dcs [(some chunk, false), (none, false)] [] [] =
      ((processBuffer ccs dcs chunk).2,
       (processBuffer ccs dcs chunk).1, none, []) := by
  rw [getRtpGo]
  simp only [if_neg hne, Bool.false_eq_true, if_false]
  rcases hpb : processBuffer ccs dcs ([] ++ chunk) with ⟨outs, b3⟩
  rw [List.nil_append] at hpb
  simp only [List.nil_append, hpb]
  rw [getRtpGo, getRtpGo]

end RTSPSession

/-- C9: encoding RTP packets as interleaved frames (`$`, channel byte,
big-endian u16 length, payload), optionally preceded by junk containing no
`0x24`, and feeding the concatenation through the session byte stream
without gaps makes `get_rtp` yield exactly the payloads of the data-channel
frames, in order, with no error: the junk prefix produces no spurious
output, and frames on control channels are consumed but discarded. -/
theorem c9_interleaved_framing_roundtrip (dcs ccs : List Nat)
    (junk : List Nat) (frames : List (Nat × List Nat))
    (hjunk : ∀ b ∈ junk, b ≠ 0x24)
    (hch : ∀ f ∈ frames, f.1 ∈ ccs ∨ f.1 ∈ dcs)
    (hlen : ∀ f ∈ frames, 12 ≤ f.2.length ∧ f.2.length ≤ 8192) :
    (RTSPSession.getRtp
        { state := .processingRTP, controlChannels := ccs, dataChannels := dcs,
          buffer := [],
          reasm := { outputQueue :=
            [(some (junk ++ RTSPSession.encodeFrames frames), false),
             (none, false)] } }).2.1 =
        (frames.filter (fun f => decide (f.1 ∈ dcs))).map Prod.snd ∧
      (RTSPSession.getRtp
        { state := .processingRTP, controlChannels := ccs, dataChannels := dcs,
          buffer := [],
          reasm := { outputQueue :=
            [(some (junk ++ RTSPSession.encodeFrames frames), false),
             (none, false)] } }).2.2 = none := by
  by_cases h0 : junk ++ RTSPSession.encodeFrames frames = []
  · have hj0 : junk = [] := (List.append_eq_nil.mp h0).1
    have he0 : RTSPSession.encodeFrames frames = [] := (List.append_eq_nil.mp h0).2
    have hf0 : frames = [] := by
      cases frames with
      | nil => rfl
      | cons f fs =>
        obtain ⟨ch, p⟩ := f
        have hne : RTSPSession.encodeFrames ((ch, p) :: fs) ≠ [] := by
          simp [RTSPSession.encodeFrames, RTSPSession.encodeFrame]
        exact absurd he0 hne
    subst hf0
    subst hj0
    exact ⟨rfl, rfl⟩
  · have hgo := RTSPSession.getRtpGo_single_chunk ccs dcs
      (junk ++ RTSPSession.encodeFrames frames) h0
    have houts : (RTSPSession.processBuffer ccs dcs
        (junk ++ RTSPSession.encodeFrames frames)).1 =
        (frames.filter (fun f => decide (f.1 ∈ dcs))).map Prod.snd := by
      rw [RTSPSession.processBuffer_junk ccs dcs junk frames hjunk]
      rw [RTSPSession.processBuffer_frames ccs dcs frames hch hlen]
    unfold RTSPSession.getRtp
    simp only [ne_eq, not_true_eq_false, if_false]
    rw [hgo]
    simp only [houts]
    exact ⟨trivial, trivial⟩

/-- Witness for `c9_interleaved_framing_roundtrip`: junk `AB CD`, one
12-byte packet on data channel 0 and one 12-byte packet on control
channel 1 — `get_rtp` yields exactly the data-channel payload. -/
theorem c9_interleaved_framing_roundtrip_witness :
    (RTSPSession.getRtp
        { state := .processingRTP, controlChannels := [1], dataChannels := [0],
          buffer := [],
          reasm := { outputQueue :=
            [(some ([0xAB, 0xCD] ++ RTSPSession.encodeFrames
              [(0, [1, 2, 3, 4, 5, 6, 7, 8, 9, 10, 11, 12]),
               (1, [9, 9, 9, 9, 9, 9, 9, 9, 9, 9, 9, 9])]), false),
             (none, false)] } }).2.1 =
        ([(0, [1, 2, 3, 4, 5, 6, 7, 8, 9, 10, 11, 12]),
          (1, [9, 9, 9, 9, 9, 9, 9, 9, 9, 9, 9, 9])].filter
            (fun f => decide (f.1 ∈ [0]))).map Prod.snd ∧
      (RTSPSession.getRtp
        { state := .processingRTP, controlChannels := [1], dataChannels := [0],
          buffer := [],
          reasm := { outputQueue :=
            [(some ([0xAB, 0xCD] ++ RTSPSession.encodeFrames
              [(0, [1, 2, 3, 4, 5, 6, 7, 8, 9, 10, 11, 12]),
               (1, [9, 9, 9, 9, 9, 9, 9, 9, 9, 9, 9, 9])]), false),
             (none, false)] } }).2.2 = none :=
  c9_interleaved_framing_roundtrip [0] [1] [0xAB, 0xCD]
    [(0, [1, 2, 3, 4, 5, 6, 7, 8, 9, 10, 11, 12]),
     (1, [9, 9, 9, 9, 9, 9, 9, 9, 9, 9, 9, 9])]
    (by decide) (by decide) (by decide)

namespace Reassembler

/-- The in-sequence-order entries of a stream: item `j` carries the sequence
number `s + (sum of the sequence increments of the items before it)` —
`s + j` in packet mode, the byte offset in data mode. -/
def entriesFrom {T : Type} (p : Params T) (s : Int) : List T → List (T × Int)
  | [] => []
  | x :: xs => (x, s) :: entriesFrom p (s + seqSize p x) xs

/-- Total sequence advance of a list of items. -/
def sumLen {T : Type} (p : Params T) (l : List T) : Int :=
  (l.map (seqSize p)).sum

theorem sumLen_nil {T : Type} (p : Params T) : sumLen p ([] : List T) = 0 := rfl

theorem sumLen_cons {T : Type} (p : Params T) (x : T) (l : List T) :
    sumLen p (x :: l) = seqSize p x + sumLen p l := by
  simp [sumLen]

theorem sumLen_append {T : Type} (p : Params T) (l1 l2 : List T) :
    sumLen p (l1 ++ l2) = sumLen p l1 + sumLen p l2 := by
  simp [sumLen]

theorem sumLen_nonneg {T : Type} (p : Params T) {l : List T}
    (h : ∀ x ∈ l, 1 ≤ seqSize p x) : 0 ≤ sumLen p l := by
  induction l with
  | nil => simp [sumLen_nil]
  | cons x xs ih =>
    rw [sumLen_cons]
    have h1 := h x (List.mem_cons_self x xs)
    have h2 := ih (fun y hy => h y (List.mem_cons_of_mem x hy))
    omega

theorem sumLen_pos {T : Type} (p : Params T) {l : List T} (hne : l ≠ [])
    (h : ∀ x ∈ l, 1 ≤ seqSize p x) : 1 ≤ sumLen p l := by
  cases l with
  | nil => exact absurd rfl hne
  | cons x xs =>
    rw [sumLen_cons]
    have h1 := h x (List.mem_cons_self x xs)
    have h2 := sumLen_nonneg p (fun y hy => h y (List.mem_cons_of_mem x hy))
    omega

theorem entriesFrom_length {T : Type} (p : Params T) (s : Int) (l : List T) :
    (entriesFrom p s l).length = l.length := by
  induction l generalizing s with
  | nil => rfl
  | cons x xs ih => simp [entriesFrom, ih]

theorem mem_entriesFrom_seq_ge {T : Type} (p : Params T) {s : Int} {l : List T}
    {x : T} {q : Int} (hpos : ∀ y ∈ l, 1 ≤ seqSize p y)
    (hmem : (x, q) ∈ entriesFrom p s l) : s ≤ q := by
  induction l generalizing s with
  | nil => simp [entriesFrom] at hmem
  | cons y ys ih =>
    simp only [entriesFrom, List.mem_cons] at hmem
    rcases hmem with h | h
    · simp only [Prod.mk.injEq] at h
      omega
    · have h1 := hpos y (List.mem_cons_self y ys)
      have h2 := ih (fun z hz => hpos z (List.mem_cons_of_mem y hz)) h
      omega

theorem mem_entriesFrom_head {T : Type} (p : Params T) {s : Int} {y : T}
    {l : List T} {x : T} (hpos : ∀ z ∈ y :: l, 1 ≤ seqSize p z)
    (hmem : (x, s) ∈ entriesFrom p s (y :: l)) : x = y := by
  simp only [entriesFrom, List.mem_cons] at hmem
  rcases hmem with h | h
  · simp only [Prod.mk.injEq] at h
    exact h.1
  · have h1 := hpos y (List.mem_cons_self y l)
    have h2 := mem_entriesFrom_seq_ge p
      (fun z hz => hpos z (List.mem_cons_of_mem y hz)) h
    omega

theorem entriesFrom_snd_nodup {T : Type} (p : Params T) {s : Int} {l : List T}
    (hpos : ∀ y ∈ l, 1 ≤ seqSize p y) :
    ((entriesFrom p s l).map Prod.snd).Nodup := by
  induction l generalizing s with
  | nil => simp [entriesFrom]
  | cons y ys ih =>
    simp only [entriesFrom, List.map_cons, List.nodup_cons]
    constructor
    · intro hmem
      simp only [List.mem_map] at hmem
      obtain ⟨⟨z, q⟩, hzq, hq⟩ := hmem
      have h1 := hpos y (List.mem_cons_self y ys)
      have h2 := mem_entriesFrom_seq_ge p
        (fun w hw => hpos w (List.mem_cons_of_mem y hw)) hzq
      simp only at hq
      omega
    · exact ih (fun z hz => hpos z (List.mem_cons_of_mem y hz))

end Reassembler

namespace Reassembler

theorem process_expected_step {T : Type} (p : Params T) (st : RState T)
    (x : T) (e : Int) (hdone : st.done = false)
    (hexp : st.expectedSeq = none ∨ st.expectedSeq = some e) :
    process p st (some x) e =
      ({ st with outputQueue := st.outputQueue ++ [(some x, false)],
                 expectedSeq := some (incrementExpectedSeq p e x) }, none) := by
  unfold process
  rcases hexp with h | h <;>
    simp [hdone, h]

theorem process_hold_step {T : Type} (p : Params T) (st : RState T)
    (x : T) (e q : Int) (hdone : st.done = false)
    (hexp : st.expectedSeq = some e) (hgt : e < q)
    (hfresh : q ∉ st.oooPackets.map Prod.fst)
    (hcap : st.oooPackets.length + 1 < p.maxOutOfOrder) :
    process p st (some x) q =
      ({ st with oooPackets := st.oooPackets ++ [(q, x)],
                 expectedSeq := some e }, none) := by
  unfold process
  simp only [hdone, Bool.false_eq_true, if_false, hexp]
  rw [if_pos (by omega : q ≠ e), if_pos (by omega : q > e),
    dictInsert_of_not_mem hfresh]
  rw [if_pos (by simp only [List.length_append, List.length_cons,
    List.length_nil]; omega)]

theorem process_finalize_step {T : Type} (p : Params T) (st : RState T)
    (e : Int) (hdone : st.done = false) (hexp : st.expectedSeq = some e) :
    process p st none (-1) =
      ({ st with done := true,
                 expectedSeq := some (finalizeDrain p st.oooPackets e).2,
                 oooPackets := [],
                 outputQueue := st.outputQueue ++
                   (finalizeDrain p st.oooPackets e).1 ++ [(none, false)] },
       none) := by
  unfold process
  simp only [hdone, Bool.false_eq_true, if_false, hexp]

theorem finalizeGo_entries {T : Type} (p : Params T) :
    ∀ (l : List T) (fuel : Nat) (d : List (Int × T)) (e : Int),
      d.length ≤ fuel →
      (d.map (fun r => (r.2, r.1))).Perm (entriesFrom p e l) →
      0 ≤ e → e + sumLen p l ≤ (2 : Int) ^ p.seqBitSize →
      (∀ x ∈ l, 1 ≤ seqSize p x) →
      (finalizeGo p fuel d e).1 = l.map (fun x => (some x, false)) := by
  intro l
  induction l with
  | nil =>
    intro fuel d e hfuel hperm _ _ _
    have hd : d = [] := by
      have h1 : d.map (fun r => (r.2, r.1)) = [] := List.Perm.eq_nil hperm
      exact List.map_eq_nil.mp h1
    subst hd
    cases fuel with
    | zero => rfl
    | succ f => rfl
  | cons y l' ih =>
    intro fuel d e hfuel hperm hb0 hb1 hpos
    have hdne : d ≠ [] := by
      intro hd
      subst hd
      have := List.Perm.length_eq hperm
      simp [entriesFrom] at this
    have hdlen : 0 < d.length := List.length_pos.mpr hdne
    cases fuel with
    | zero => omega
    | succ f =>
      obtain ⟨⟨k, v⟩, d', hpm⟩ := popMin_isSome hdne
      have hdperm : d.Perm ((k, v) :: d') := popMin_perm hpm
      have hswapperm : ((v, k) :: d'.map (fun r => (r.2, r.1))).Perm
          (entriesFrom p e (y :: l')) := by
        have h1 : (d.map (fun r => (r.2, r.1))).Perm
            (((k, v) :: d').map (fun r => (r.2, r.1))) := hdperm.map _
        exact (h1.symm.trans hperm)
      have hkmem : (v, k) ∈ entriesFrom p e (y :: l') :=
        hswapperm.mem_iff.mp (List.mem_cons_self _ _)
      have hkge : e ≤ k :=
        mem_entriesFrom_seq_ge p hpos hkmem
      have hemem : e ∈ d.map Prod.fst := by
        have h1 : (y, e) ∈ entriesFrom p e (y :: l') := by
          simp [entriesFrom]
        have h2 : (y, e) ∈ d.map (fun r => (r.2, r.1)) :=
          hperm.mem_iff.mpr h1
        simp only [List.mem_map] at h2
        obtain ⟨⟨a, b⟩, hab, habe⟩ := h2
        simp only [Prod.mk.injEq] at habe
        obtain ⟨hby, hae⟩ := habe
        subst hae
        exact List.mem_map_of_mem Prod.fst hab
      have hkle : k ≤ e := popMin_min hpm e hemem
      have hke : k = e := le_antisymm hkle hkge
      have hvy : v = y := mem_entriesFrom_head p hpos (hke ▸ hkmem)
      have hperm' : (d'.map (fun r => (r.2, r.1))).Perm
          (entriesFrom p (e + seqSize p y) l') := by
        have h1 : ((y, e) :: d'.map (fun r => (r.2, r.1))).Perm
            ((y, e) :: entriesFrom p (e + seqSize p y) l') := by
          have h2 := hswapperm
          rw [hke, hvy] at h2
          simpa [entriesFrom] using h2
        exact h1.cons_inv
      have hd'len : d'.length ≤ f := by
        have := List.Perm.length_eq hdperm
        simp at this
        omega
      have hy1 : 1 ≤ seqSize p y := hpos y (List.mem_cons_self y l')
      have hl'0 : 0 ≤ sumLen p l' :=
        sumLen_nonneg p (fun z hz => hpos z (List.mem_cons_of_mem y hz))
      have hMpos : (0 : Int) < 2 ^ p.seqBitSize := by positivity
      have hrec : (finalizeGo p f d' (incrementExpectedSeq p e y)).1 =
          l'.map (fun x => (some x, false)) := by
        rcases eq_or_ne l' [] with hl' | hl'
        · subst hl'
          exact ih f d' (incrementExpectedSeq p e y) hd'len
            (by simpa [entriesFrom] using hperm')
            (Int.emod_nonneg _ (by omega))
            (by
              rw [sumLen_nil, add_zero]
              exact le_of_lt (Int.emod_lt_of_pos _ hMpos))
            (by simp)
        · have hsum1 : 1 ≤ sumLen p l' :=
            sumLen_pos p hl' (fun z hz => hpos z (List.mem_cons_of_mem y hz))
          have hmod : incrementExpectedSeq p e y = e + seqSize p y := by
            unfold incrementExpectedSeq
            rw [sumLen_cons] at hb1
            exact Int.emod_eq_of_lt (by omega) (by omega)
          rw [hmod]
          exact ih f d' (e + seqSize p y) hd'len hperm' (by omega)
            (by rw [sumLen_cons] at hb1; omega)
            (fun z hz => hpos z (List.mem_cons_of_mem y hz))
      simp only [finalizeGo, hpm, hke, hvy]
      simp only [ne_eq, not_true_eq_false, if_false, List.map_cons]
      rw [hrec]
      simp

end Reassembler

namespace Reassembler

theorem processAll_inorder {T : Type} (p : Params T) :
    ∀ (l : List T) (st : RState T) (e : Int),
      st.done = false →
      (st.expectedSeq = none ∨ st.expectedSeq = some e) →
      0 ≤ e → e + sumLen p l ≤ (2 : Int) ^ p.seqBitSize →
      (∀ x ∈ l, 1 ≤ seqSize p x) →
      ∃ st', processAll p st (entriesFrom p e l) = (st', none) ∧
        st'.done = false ∧
        st'.oooPackets = st.oooPackets ∧
        st'.outputQueue = st.outputQueue ++ l.map (fun x => (some x, false)) ∧
        (l = [] → st' = st) ∧
        (l ≠ [] → st'.expectedSeq =
          some ((e + sumLen p l) % (2 : Int) ^ p.seqBitSize)) := by
  intro l
  induction l with
  | nil =>
    intro st e hdone hexp _ _ _
    exact ⟨st, rfl, hdone, rfl, by simp, fun _ => rfl, fun h => absurd rfl h⟩
  | cons x xs ih =>
    intro st e hdone hexp hb0 hb1 hpos
    have hx1 : 1 ≤ seqSize p x := hpos x (List.mem_cons_self x xs)
    have hxs0 : 0 ≤ sumLen p xs :=
      sumLen_nonneg p (fun z hz => hpos z (List.mem_cons_of_mem x hz))
    rw [sumLen_cons] at hb1
    have hstep := process_expected_step p st x e hdone hexp
    have hst1 : ∃ st1 : RState T, st1 = { st with outputQueue := st.outputQueue ++ [(some x, false)], expectedSeq := some (incrementExpectedSeq p e x) } := ⟨_, rfl⟩
    obtain ⟨st1, hst1⟩ := hst1
    have hstep1 : process p st (some x) e = (st1, none) := by rw [hstep, hst1]
    rcases eq_or_ne xs [] with hxs | hxs
    · subst hxs
      refine ⟨st1, ?_, ?_, ?_, ?_, ?_, ?_⟩
      · show processAll p st (entriesFrom p e [x]) = _
        simp only [entriesFrom, processAll, hstep1]
      · simp [hst1, hdone]
      · simp [hst1]
      · simp [hst1]
      · intro h
        exact absurd h (List.cons_ne_nil x [])
      · intro _
        rw [hst1]
        simp only [incrementExpectedSeq, sumLen_cons, sumLen_nil]
        rw [add_zero]
    · have hsum1 : 1 ≤ sumLen p xs :=
        sumLen_pos p hxs (fun z hz => hpos z (List.mem_cons_of_mem x hz))
      have hmod : incrementExpectedSeq p e x = e + seqSize p x := by
        unfold incrementExpectedSeq
        exact Int.emod_eq_of_lt (by omega) (by omega)
      obtain ⟨st', hall, hdone', hooo', hq', _, hexp'⟩ :=
        ih st1 (e + seqSize p x) (by simp [hst1, hdone])
          (Or.inr (by simp [hst1, hmod])) (by omega) (by omega)
          (fun z hz => hpos z (List.mem_cons_of_mem x hz))
      refine ⟨st', ?_, hdone', ?_, ?_, ?_, ?_⟩
      · show processAll p st (entriesFrom p e (x :: xs)) = _
        simp only [entriesFrom, processAll, hstep1]
        exact hall
      · rw [hooo', hst1]
      · rw [hq', hst1]
        simp
      · intro h
        exact absurd h (List.cons_ne_nil x xs)
      · intro _
        rw [hexp' hxs, sumLen_cons]
        ring_nf

end Reassembler

namespace Reassembler

theorem processAll_ooo {T : Type} (p : Params T) (K0 : Nat)
    (hK0 : K0 < p.maxOutOfOrder) :
    ∀ (R : List (T × Int)) (st : RState T) (e : Int) (rest : List T),
      st.done = false →
      st.expectedSeq = some e →
      ((st.oooPackets.map (fun r => (r.2, r.1))) ++ R).Perm
        (entriesFrom p e rest) →
      rest.length ≤ K0 →
      0 ≤ e → e + sumLen p rest ≤ (2 : Int) ^ p.seqBitSize →
      (∀ x ∈ rest, 1 ≤ seqSize p x) →
      ∃ (k : Nat) (st' : RState T) (e' : Int),
        processAll p st R = (st', none) ∧
        st'.done = false ∧
        st'.outputQueue = st.outputQueue ++
          (rest.take k).map (fun x => (some x, false)) ∧
        st'.expectedSeq = some e' ∧
        (st'.oooPackets.map (fun r => (r.2, r.1))).Perm
          (entriesFrom p e' (rest.drop k)) ∧
        0 ≤ e' ∧ e' + sumLen p (rest.drop k) ≤ (2 : Int) ^ p.seqBitSize ∧
        (∀ x ∈ rest.drop k, 1 ≤ seqSize p x) := by
  intro R
  induction R with
  | nil =>
    intro st e rest hdone hexp hperm hrest hb0 hb1 hpos
    refine ⟨0, st, e, rfl, hdone, by simp, hexp, ?_, hb0, by simpa using hb1,
      by simpa using hpos⟩
    simpa using hperm
  | cons xq R' ih =>
    intro st e rest hdone hexp hperm hrest hb0 hb1 hpos
    obtain ⟨x, q⟩ := xq
    have hMpos : (0 : Int) < 2 ^ p.seqBitSize := by positivity
    have hmem : (x, q) ∈ entriesFrom p e rest := by
      apply hperm.mem_iff.mp
      exact List.mem_append_right _ (List.mem_cons_self _ _)
    cases rest with
    | nil => simp [entriesFrom] at hmem
    | cons y rest' =>
      have hy1 : 1 ≤ seqSize p y := hpos y (List.mem_cons_self y rest')
      have hrest'0 : 0 ≤ sumLen p rest' :=
        sumLen_nonneg p (fun z hz => hpos z (List.mem_cons_of_mem y hz))
      have hqge : e ≤ q := mem_entriesFrom_seq_ge p hpos hmem
      by_cases hqe : q = e
      · -- the arriving packet carries the expected sequence number
        subst hqe
        have hxy : x = y := mem_entriesFrom_head p hpos hmem
        subst hxy
        have hstep := process_expected_step p st x q hdone (Or.inr hexp)
        have hst1 : ∃ st1 : RState T, st1 = { st with
            outputQueue := st.outputQueue ++ [(some x, false)],
            expectedSeq := some (incrementExpectedSeq p q x) } := ⟨_, rfl⟩
        obtain ⟨st1, hst1⟩ := hst1
        have hstep1 : process p st (some x) q = (st1, none) := by
          rw [hstep, hst1]
        have hperm2 : ((st.oooPackets.map (fun r => (r.2, r.1))) ++ R').Perm
            (entriesFrom p (q + seqSize p x) rest') := by
          have h1 : ((x, q) ::
              ((st.oooPackets.map (fun r => (r.2, r.1))) ++ R')).Perm
              (entriesFrom p q (x :: rest')) :=
            (List.perm_middle).symm.trans hperm
          rw [entriesFrom] at h1
          exact h1.cons_inv
        rcases eq_or_ne rest' [] with hr' | hr'
        · subst hr'
          have hLnil : (st.oooPackets.map (fun r => (r.2, r.1))) ++ R' = [] :=
            List.Perm.eq_nil (by simpa [entriesFrom] using hperm2)
          have hooonil : st.oooPackets = [] :=
            List.map_eq_nil.mp (List.append_eq_nil.mp hLnil).1
          have hR'nil : R' = [] := (List.append_eq_nil.mp hLnil).2
          subst hR'nil
          refine ⟨1, st1, incrementExpectedSeq p q x, ?_, ?_, ?_, ?_, ?_, ?_, ?_, ?_⟩
          · simp only [processAll, hstep1]
          · simp [hst1, hdone]
          · simp [hst1]
          · simp [hst1]
          · simp [hst1, hooonil, entriesFrom]
          · exact Int.emod_nonneg _ (by omega)
          · simpa [sumLen_nil] using le_of_lt
              (Int.emod_lt_of_pos _ hMpos)
          · simp
        · have hsum1 : 1 ≤ sumLen p rest' :=
            sumLen_pos p hr' (fun z hz => hpos z (List.mem_cons_of_mem x hz))
          rw [sumLen_cons] at hb1
          have hmod : incrementExpectedSeq p q x = q + seqSize p x := by
            unfold incrementExpectedSeq
            exact Int.emod_eq_of_lt (by omega) (by omega)
          obtain ⟨k, st', e'', hall, hdone', hq', hexp', hperm'', hb0', hb1', hpos'⟩ :=
            ih st1 (q + seqSize p x) rest' (by simp [hst1, hdone])
              (by simp [hst1, hmod]) (by simpa [hst1] using hperm2)
              (by simp at hrest; omega) (by omega) (by omega)
              (fun z hz => hpos z (List.mem_cons_of_mem x hz))
          refine ⟨k + 1, st', e'', ?_, hdone', ?_, hexp', hperm'', hb0', hb1', hpos'⟩
          · simp only [processAll, hstep1]
            exact hall
          · rw [hq', hst1]
            simp
      · -- out-of-order arrival: held, capacity not yet reached
        have hqgt : e < q := lt_of_le_of_ne hqge (Ne.symm hqe)
        have hnodupR : ((st.oooPackets.map (fun r => (r.2, r.1)) ++
            ((x, q) :: R')).map Prod.snd).Nodup :=
          ((hperm.map Prod.snd).symm).nodup (entriesFrom_snd_nodup p hpos)
        have hfresh : q ∉ st.oooPackets.map Prod.fst := by
          intro hq
          obtain ⟨r, hr, hrq⟩ := List.mem_map.mp hq
          have h1 : q ∈ (st.oooPackets.map (fun r => (r.2, r.1))).map Prod.snd := by
            refine List.mem_map.mpr ⟨(r.2, r.1), List.mem_map_of_mem _ hr, ?_⟩
            simpa using hrq
          have h2 : q ∈ ((x, q) :: R').map Prod.snd := by simp
          rw [List.map_append] at hnodupR
          exact (List.disjoint_of_nodup_append hnodupR) h1 h2
        have hlen := hperm.length_eq
        simp only [List.length_append, List.length_map, List.length_cons,
          entriesFrom_length] at hlen
        have hrestlen : rest'.length + 1 ≤ K0 := by simpa using hrest
        have hcap : st.oooPackets.length + 1 < p.maxOutOfOrder := by omega
        have hstep := process_hold_step p st x e q hdone hexp hqgt hfresh hcap
        have hst1 : ∃ st1 : RState T, st1 = { st with
            oooPackets := st.oooPackets ++ [(q, x)],
            expectedSeq := some e } := ⟨_, rfl⟩
        obtain ⟨st1, hst1⟩ := hst1
        have hstep1 : process p st (some x) q = (st1, none) := by
          rw [hstep, hst1]
        have hperm1 : ((st1.oooPackets.map (fun r => (r.2, r.1))) ++ R').Perm
            (entriesFrom p e (y :: rest')) := by
          rw [hst1]
          simp only [List.map_append, List.map_cons, List.map_nil]
          rw [List.append_assoc]
          simpa using hperm
        obtain ⟨k, st', e'', hall, hdone', hq', hexp', hperm'', hb0', hb1', hpos'⟩ :=
          ih st1 e (y :: rest') (by simp [hst1, hdone]) (by simp [hst1])
            hperm1 hrest hb0 hb1 hpos
        refine ⟨k, st', e'', ?_, hdone', ?_, hexp', hperm'', hb0', hb1', hpos'⟩
        · simp only [processAll, hstep1]
          exact hall
        · rw [hq', hst1]

end Reassembler

namespace Reassembler

theorem processAll_append {T : Type} (p : Params T) :
    ∀ (l1 : List (T × Int)) (l2 : List (T × Int)) (st st1 : RState T),
      processAll p st l1 = (st1, none) →
      processAll p st (l1 ++ l2) = processAll p st1 l2 := by
  intro l1
  induction l1 with
  | nil =>
    intro l2 st st1 h
    simp only [processAll] at h
    injection h with h1 h2
    subst h1
    simp
  | cons a l1' ih =>
    intro l2 st st1 h
    obtain ⟨x, q⟩ := a
    rcases hp : process p st (some x) q with ⟨st2, err⟩
    cases err with
    | none =>
      rw [List.cons_append]
      simp only [processAll, hp] at h ⊢
      exact ih l2 st2 st1 h
    | some e =>
      simp only [processAll, hp] at h
      simp at h

end Reassembler

/-- C2 (amended): for every finite input consisting of a non-empty in-order
prefix `itemsA` (fed at consecutive sequence numbers from `s`) followed by an
arbitrary permutation `B` of the remaining entries `itemsB`, where the
sequence range does not wrap, every item advances the sequence by at least 1,
and the out-of-order tail holds fewer than `max_out_of_order` items, the feed
raises nothing and after `process(None)` the output queue is exactly the
items in sequence order, each with `skipped = False`, followed by the
`(None, False)` sentinel. -/
theorem c2_reassembler_identity_amended {T : Type} (p : Reassembler.Params T)
    (itemsA itemsB : List T) (B : List (T × Int)) (s : Int)
    (hA : itemsA ≠ [])
    (hBperm : B.Perm
      (Reassembler.entriesFrom p (s + Reassembler.sumLen p itemsA) itemsB))
    (hBlen : itemsB.length < p.maxOutOfOrder)
    (hb0 : 0 ≤ s)
    (hb1 : s + Reassembler.sumLen p itemsA + Reassembler.sumLen p itemsB ≤
      (2 : Int) ^ p.seqBitSize)
    (hpos : ∀ x ∈ itemsA ++ itemsB, 1 ≤ Reassembler.seqSize p x) :
    ∃ st' stf : Reassembler.RState T,
      Reassembler.processAll p {}
        (Reassembler.entriesFrom p s itemsA ++ B) = (st', none) ∧
      Reassembler.process p st' none (-1) = (stf, none) ∧
      stf.outputQueue =
        (itemsA ++ itemsB).map (fun x => (some x, false)) ++ [(none, false)] := by
  have hposA : ∀ x ∈ itemsA, 1 ≤ Reassembler.seqSize p x :=
    fun x hx => hpos x (List.mem_append_left _ hx)
  have hposB : ∀ x ∈ itemsB, 1 ≤ Reassembler.seqSize p x :=
    fun x hx => hpos x (List.mem_append_right _ hx)
  have hA0 : 0 ≤ Reassembler.sumLen p itemsA := Reassembler.sumLen_nonneg p hposA
  have hB0 : 0 ≤ Reassembler.sumLen p itemsB := Reassembler.sumLen_nonneg p hposB
  have hsA1 : 1 ≤ Reassembler.sumLen p itemsA := Reassembler.sumLen_pos p hA hposA
  have hMpos : (0 : Int) < 2 ^ p.seqBitSize := by positivity
  obtain ⟨st1, h1, hdone1, hooo1, hq1, hnil1, hne1⟩ :=
    Reassembler.processAll_inorder p itemsA {} s rfl (Or.inl rfl) hb0
      (by omega) hposA
  have hexp1 := hne1 hA
  have hooonil : st1.oooPackets = [] := by rw [hooo1]
  rcases eq_or_ne itemsB [] with hBnil | hBne
  · subst hBnil
    have hBempty : B = [] :=
      List.Perm.eq_nil (by simpa [Reassembler.entriesFrom] using hBperm)
    subst hBempty
    have hfeed : Reassembler.processAll p {}
        (Reassembler.entriesFrom p s itemsA ++ []) = (st1, none) := by
      rw [List.append_nil]
      exact h1
    have hfin := Reassembler.process_finalize_step p st1 _ hdone1 hexp1
    refine ⟨st1, _, hfeed, hfin, ?_⟩
    have hdrain : (Reassembler.finalizeDrain p st1.oooPackets
        ((s + Reassembler.sumLen p itemsA) % 2 ^ p.seqBitSize)).1 = [] := by
      rw [hooonil]
      rfl
    simp only [hdrain, hq1, List.append_nil]
    simp
  · have hsB1 : 1 ≤ Reassembler.sumLen p itemsB :=
      Reassembler.sumLen_pos p hBne hposB
    have hmodA : (s + Reassembler.sumLen p itemsA) % 2 ^ p.seqBitSize =
        s + Reassembler.sumLen p itemsA :=
      Int.emod_eq_of_lt (by omega) (by omega)
    obtain ⟨k, st2, e2, hall2, hdone2, hq2, hexp2, hperm2, hb02, hb12, hpos2⟩ :=
      Reassembler.processAll_ooo p itemsB.length hBlen B st1
        (s + Reassembler.sumLen p itemsA) itemsB hdone1
        (by rw [hexp1, hmodA]) (by simpa [hooonil] using hBperm)
        le_rfl (by omega) (by omega) hposB
    have hfeed : Reassembler.processAll p {}
        (Reassembler.entriesFrom p s itemsA ++ B) = (st2, none) := by
      rw [Reassembler.processAll_append p _ B {} st1 h1]
      exact hall2
    have hfin := Reassembler.process_finalize_step p st2 e2 hdone2 hexp2
    refine ⟨st2, _, hfeed, hfin, ?_⟩
    have hdrain : (Reassembler.finalizeGo p st2.oooPackets.length
        st2.oooPackets e2).1 =
        (itemsB.drop k).map (fun x => (some x, false)) :=
      Reassembler.finalizeGo_entries p (itemsB.drop k) st2.oooPackets.length
        st2.oooPackets e2 le_rfl hperm2 hb02 hb12 hpos2
    simp only [Reassembler.finalizeDrain, hdrain, hq2, hq1]
    have hsplit : (List.take k itemsB).map
          (fun x => ((some x : Option T), false)) ++
        (List.drop k itemsB).map (fun x => ((some x : Option T), false)) =
        itemsB.map (fun x => ((some x : Option T), false)) := by
      rw [← List.map_append, List.take_append_drop]
    simp only [List.map_append, List.append_assoc, hsplit]
    simp

/-- Concrete instance of the amended C2 law: items `[5, 6, 7]` fed as the
in-order prefix `[5]` at sequence 0 followed by the out-of-order tail
`[(7, 2), (6, 1)]` under the packet-mode RTP parameters. -/
theorem c2_reassembler_identity_amended_witness :
    ∃ st' stf : Reassembler.RState Nat,
      Reassembler.processAll Reassembler.rtpParams {}
        (Reassembler.entriesFrom Reassembler.rtpParams 0 [5] ++ [(7, 2), (6, 1)])
        = (st', none) ∧
      Reassembler.process Reassembler.rtpParams st' none (-1) = (stf, none) ∧
      stf.outputQueue =
        (([5, 6, 7] : List Nat).map (fun x => (some x, false))) ++
          [(none, false)] :=
  c2_reassembler_identity_amended Reassembler.rtpParams [5] [6, 7]
    [(7, 2), (6, 1)] 0 (by decide) (by decide) (by decide) (by decide)
    (by decide) (by decide)
